import Mathlib

/-
Verification of the Tabular Display Normalization Engine of
`src/app.py` (Mercado Livre Ads dashboard).

A table (pandas `DataFrame`) is modelled as an ordered list of named
columns, each an ordered list of cell values.  Cell values are either
missing (`NaN`/`None`/`pd.NA`, all collapsed into one sentinel), numeric
(modelled as exact rationals; the source uses IEEE floats, whose rounding
artifacts and infinities are outside the model), or text.
-/

namespace MlAds

/- The Batteries rational-number operations are `@[irreducible]`, which
blocks `decide` on concrete tables; inside this file they may unfold. -/
attribute [local semireducible] Rat.mul Rat.inv Rat.add Rat.sub

inductive Cell where
  | na : Cell
  | num : Rat → Cell
  | text : String → Cell
deriving Repr, DecidableEq

structure DF where
  cols : List (String × List Cell)
deriving Repr, DecidableEq

def DF.names (df : DF) : List String := df.cols.map Prod.fst

/-- pandas `df.empty`: true iff the frame has no columns or no rows.
In a representable frame all columns share one index, so "some column has
no cells" coincides with "the (shared) index has length zero". -/
def DF.isEmptyTbl (df : DF) : Bool :=
  df.cols.isEmpty || df.cols.any (fun c => c.2.isEmpty)

/- ===== Python string primitives (modelled on lists of characters) ===== -/

/-- ASCII whitespace, as stripped by Python `str.strip()` (Unicode
whitespace beyond ASCII is not modelled). -/
def isSpaceChar (c : Char) : Bool :=
  c = ' ' || c = '\t' || c = '\n' || c = '\r' || c = '\x0b' || c = '\x0c'

def trimChars (l : List Char) : List Char :=
  ((l.dropWhile isSpaceChar).reverse.dropWhile isSpaceChar).reverse

/-- Python `str.strip()`. -/
def pyStrip (s : String) : String := ⟨trimChars s.toList⟩

/-- Python `str.lower()` (ASCII case folding; accented capitals are left
unchanged, which the claims never exercise). -/
def pyLower (s : String) : String := ⟨s.toList.map Char.toLower⟩

/-- Python `str.replace(pat, rep)`: leftmost, non-overlapping occurrences,
written with structural recursion on a fuel argument (the fuel is the
length of the string, which always suffices because every step consumes
at least one character).  (The `pat = []` case, where Python would
interleave `rep` everywhere, is never used by the source and is treated
as a no-op here.) -/
def replaceCharsAux (pat rep : List Char) : Nat → List Char → List Char
  | _, [] => []
  | 0, l => l
  | fuel + 1, c :: rest =>
    if pat ≠ [] ∧ pat.isPrefixOf (c :: rest) then
      rep ++ replaceCharsAux pat rep fuel ((c :: rest).drop pat.length)
    else
      c :: replaceCharsAux pat rep fuel rest

def replaceChars (pat rep l : List Char) : List Char :=
  replaceCharsAux pat rep l.length l

def pyReplace (s pat rep : String) : String :=
  ⟨replaceChars pat.toList rep.toList s.toList⟩

/-- Python `pat in s` (substring containment). -/
def containsChars : List Char → List Char → Bool
  | [], pat => pat.isEmpty
  | a :: t, pat => pat.isPrefixOf (a :: t) || containsChars t pat

def strContains (s pat : String) : Bool := containsChars s.toList pat.toList

/-- Python `str.startswith`. -/
def strStarts (s pat : String) : Bool := pat.toList.isPrefixOf s.toList

/-- Python `str.endswith`. -/
def strEnds (s pat : String) : Bool := pat.toList.reverse.isPrefixOf s.toList.reverse

/- ===== Column-name normalizations used by src/app.py ===== -/

/-- `_norm_col` (app.py line 44): strip, lower, spaces to underscores,
collapse double underscores. -/
def norm_col (s : String) : String :=
  pyReplace (pyReplace (pyLower (pyStrip s)) " " "_") "__" "_"

/-- The normalization used by `_is_id_col`, `_is_percent_col`,
`_is_count_col` and `_roas_col_name_from_acos_col`: strip, lower,
collapse double underscores (spaces are kept). -/
def det_norm (s : String) : String :=
  pyReplace (pyLower (pyStrip s)) "__" "_"

/-- The normalization used by `_is_money_col`, the ACOS-objetivo
detection and the text-preservation check: strip and lower only. -/
def strip_lower (s : String) : String := pyLower (pyStrip s)

/- ===== Numeric coercion (pd.to_numeric(..., errors="coerce")) ===== -/

def digitsVal (cs : List Char) : Nat :=
  cs.foldl (fun a c => a * 10 + (c.toNat - 48)) 0

/-- Numeric parsing of a string cell, as done by
`pd.to_numeric(..., errors="coerce")`: optional surrounding whitespace,
optional sign, decimal digits with an optional fractional part.
(Exponents, `inf` and `nan` literals are not modelled; such strings
coerce to the missing sentinel here.)  Returns `none` when the string is
not numeric, which pandas turns into `NaN`. -/
def parse_py_number (s : String) : Option Rat :=
  let cs := trimChars s.toList
  let signed : Int × List Char :=
    match cs with
    | '-' :: rest => (-1, rest)
    | '+' :: rest => (1, rest)
    | _ => (1, cs)
  let body := signed.2
  let ip := body.takeWhile Char.isDigit
  let rest := body.dropWhile Char.isDigit
  match rest with
  | [] => if ip.isEmpty then none else some ((signed.1 : Rat) * (digitsVal ip : Rat))
  | '.' :: fp =>
    if fp.all Char.isDigit && !(ip.isEmpty && fp.isEmpty) then
      some ((signed.1 : Rat) *
        ((digitsVal ip : Rat) + (digitsVal fp : Rat) / ((10 : Rat) ^ fp.length)))
    else none
  | _ => none

/-- Elementwise semantics of `pd.to_numeric(col, errors="coerce")`:
missing stays missing, numbers pass through, strings are parsed
(non-coercible strings become missing). -/
def coerceCell : Cell → Option Rat
  | Cell.na => none
  | Cell.num v => some v
  | Cell.text s => parse_py_number s

/- ===== Column detectors (app.py lines 159-272) ===== -/

/-- `_is_money_col` keyword list (app.py lines 161-173). -/
def moneyKeys : List String :=
  ["orcamento", "orçamento", "investimento", "receita", "vendas_brutas",
   "potencial_receita", "potencial receita", "impacto_estimado",
   "impacto estimado", "faturamento", "vendas (r$)"]

def is_money_col (col : String) : Bool :=
  moneyKeys.any (fun k => strContains (strip_lower col) k)

/-- `_is_id_col` (app.py lines 177-196). -/
def is_id_col (col : String) : Bool :=
  let c := det_norm col
  c = "id" || c = "id_anuncio" || c = "id_anúncio" || c = "id campanha" ||
  c = "id_campanha" || strEnds c "_id" || strStarts c "id_" ||
  strContains c "id anuncio" || strContains c "id anúncio" ||
  strContains c "id do anuncio" || strContains c "id do anúncio" ||
  strContains c "id campanha"

/-- `_PERCENT_COLS` (app.py lines 201-218). -/
def percentCols : List String :=
  ["acos real", "acos_real", "cpi_share", "cpi share", "cpi_cum", "cpi cum",
   "con_visitas_vendas", "con visitas vendas", "conv_visitas_vendas",
   "conv visitas vendas", "conv_visitas_compradores",
   "conv visitas compradores", "perdidas_orc", "perdidas_class", "cvr",
   "cvr\n(conversion rate)"]

def is_percent_col (col : String) : Bool :=
  percentCols.contains (det_norm col)

/-- `_is_count_col` target set (app.py lines 243-257). -/
def countTargets : List String :=
  ["impressoes", "impressões", "impressions", "cliques", "clicks", "visitas",
   "visits", "qtd_vendas", "qtd vendas", "quantidade_vendas",
   "quantidade vendas", "orders", "pedidos"]

/-- `_is_count_col` (app.py lines 226-272). -/
def is_count_col (col : String) : Bool :=
  let c := det_norm col
  if strContains c "conv_" || strStarts c "con_" || strContains c "convers" ||
     strContains c "cvr" || strContains c "taxa" then
    false
  else if countTargets.contains c then
    true
  else if strEnds c "_impressoes" || strEnds c "_impressões" ||
          strEnds c "_impressions" then
    true
  else if strEnds c "_cliques" || strEnds c "_clicks" then
    true
  else if strEnds c "_visitas" || strEnds c "_visits" then
    true
  else if strContains c "qtd_vendas" || strContains c "quantidade_vendas" then
    true
  else
    false

/-- The by-name text-preservation check of `format_table_br`
(app.py lines 361-369). -/
def text_preserve (col : String) : Bool :=
  let lc := strip_lower col
  strContains lc "nome" || strContains lc "campanha" || strContains lc "acao" ||
  strContains lc "ação" || strContains lc "recomend" ||
  strContains lc "estrateg" || strContains lc "estratég"

/-- Detection of an ACOS-objetivo column in
`replace_acos_obj_with_roas_obj` (app.py line 319). -/
def acos_obj_detect (col : String) : Bool :=
  strContains (strip_lower col) "acos" && strContains (strip_lower col) "objetivo"

/-- `_roas_col_name_from_acos_col` (app.py lines 297-301). -/
def roas_col_name_from_acos_col (col : String) : String :=
  let lc := det_norm col
  if strEnds lc "_n" || strContains lc "objetivo_n" || strContains lc "objetivo n" then
    "ROAS objetivo N"
  else
    "ROAS objetivo"

/- ===== Brazilian-locale formatters (app.py lines 13-37) ===== -/

/-- Round to the nearest integer, ties to even — the rounding used by
Python `round` and by `format(x, ".2f")` on exact values.  (On IEEE
floats Python rounds the binary value; decimal ties that are not exactly
representable are outside this model.) -/
def roundHalfEven (q : Rat) : Int :=
  let f := q.floor
  let r := q - (f : Rat)
  if r < 1 / 2 then f
  else if 1 / 2 < r then f + 1
  else if f % 2 = 0 then f else f + 1

/-- Group a reversed digit list in threes, inserting `sep`. -/
def groupRev (sep : Char) : List Char → List Char
  | a :: b :: c :: d :: rest => a :: b :: c :: sep :: groupRev sep (d :: rest)
  | l => l

/-- Insert `,` as a thousands separator, as `format(x, ",")` does. -/
def groupDigits (s : String) : String :=
  ⟨(groupRev ',' s.toList.reverse).reverse⟩

def padZeros (width : Nat) (s : String) : String :=
  ⟨List.replicate (width - s.length) '0' ++ s.toList⟩

/-- US-locale fixed-point rendering `format(x, ",.<d>f")` (with `grouped`)
or `format(x, ".<d>f")` (without). -/
def usFixed (x : Rat) (decimals : Nat) (grouped : Bool) : String :=
  let m : Nat := 10 ^ decimals
  let n : Int := roundHalfEven (x * (m : Rat))
  let a : Nat := n.natAbs
  let ipStr := toString (a / m)
  let ip := if grouped then groupDigits ipStr else ipStr
  let fp := padZeros decimals (toString (a % m))
  (if x < 0 then "-" else "") ++ ip ++ (if decimals = 0 then "" else "." ++ fp)

/-- `fmt_money_br` (app.py lines 13-16):
`"R$ {x:,.2f}"` with `,`/`.` swapped via the X-replace chain. -/
def fmt_money_br (x : Option Rat) : String :=
  match x with
  | none => ""
  | some v =>
    pyReplace (pyReplace (pyReplace ("R$ " ++ usFixed v 2 true) "," "X") "." ",") "X" "."

/-- `fmt_percent_br` (app.py lines 19-22): `"{x:.2f}%"` with `.` to `,`. -/
def fmt_percent_br (x : Option Rat) : String :=
  match x with
  | none => ""
  | some v => pyReplace (usFixed v 2 false ++ "%") "." ","

/-- `fmt_number_br` (app.py lines 25-28). -/
def fmt_number_br (x : Option Rat) (decimals : Nat) : String :=
  match x with
  | none => ""
  | some v =>
    pyReplace (pyReplace (pyReplace (usFixed v decimals true) "," "X") "." ",") "X" "."

/-- `fmt_int_br` (app.py lines 31-37): `"{int(round(float(x))):,}"` with
`,` to `.`.  The `try`/`except` of the source catches `float`/`int`
failures (infinities, overflow); on exact rationals the conversion is
total, so the except arm is unreachable in the model. -/
def fmt_int_br (x : Option Rat) : String :=
  match x with
  | none => ""
  | some v =>
    let n := roundHalfEven v
    pyReplace ((if n < 0 then "-" else "") ++ groupDigits (toString n.natAbs)) "," "."

/- ===== DataFrame primitives ===== -/

/-- Read column `n` (pandas `df[n]`, first matching column).  The total
variant returns `[]` for a missing name; the raising behaviour (KeyError)
is modelled separately by `getColE`. -/
def getCol (df : DF) (n : String) : List Cell :=
  match df.cols.find? (fun c => c.1 = n) with
  | some c => c.2
  | none => []

def setColList : List (String × List Cell) → String → List Cell → List (String × List Cell)
  | [], n, v => [(n, v)]
  | c :: rest, n, v => if c.1 = n then (n, v) :: rest else c :: setColList rest n v

/-- In-place column assignment `df[n] = v`: replaces the first column
named `n` in place, appends a new column otherwise. -/
def setCol (df : DF) (n : String) (v : List Cell) : DF :=
  ⟨setColList df.cols n v⟩

/-- Column selection `df[ns]`: the listed columns, in the listed order.
Missing names (which make pandas raise) are skipped here; `selectColsE`
models the raising behaviour. -/
def selectCols (df : DF) (ns : List String) : DF :=
  ⟨ns.filterMap (fun n => df.cols.find? (fun c => c.1 = n))⟩

def getColE (df : DF) (n : String) : Except String (List Cell) :=
  match df.cols.find? (fun c => c.1 = n) with
  | some c => Except.ok c.2
  | none => Except.error "KeyError"

def selectColsE (df : DF) (ns : List String) : Except String DF := do
  let cs ← ns.mapM (fun n =>
    match df.cols.find? (fun c => c.1 = n) with
    | some c => Except.ok c
    | none => (Except.error "KeyError" : Except String (String × List Cell)))
  pure ⟨cs⟩

/-- Python `list.insert(i, a)` (appends when `i` is past the end). -/
def insertAt (l : List α) (i : Nat) (a : α) : List α :=
  l.take i ++ a :: l.drop i

/- ===== Series-level helpers of format_table_br ===== -/

/-- `Series.max(skipna=True)` over the non-missing values. -/
def series_max : List Rat → Option Rat
  | [] => none
  | x :: xs =>
    match series_max xs with
    | none => some x
    | some m => some (max x m)

/-- The percent scale normalization inlined in `format_table_br`
(app.py lines 387-389; spec §4.2 `normalize_percent_scale`): if the
maximum non-missing value exists and is at most 2, multiply everything
by 100, else leave the series unchanged. -/
def percent_scale (vs : List (Option Rat)) : List (Option Rat) :=
  match series_max (vs.filterMap id) with
  | none => vs
  | some m => if m ≤ 2 then vs.map (Option.map (fun v => v * 100)) else vs

/-- `df_fmt[col].notna().sum()`. -/
def nonNullCount (vals : List Cell) : Nat :=
  vals.countP (fun c => !(c == Cell.na))

/-- `serie_num.notna().sum()` — the count of numeric-coercible cells. -/
def numOkCount (vals : List Cell) : Nat :=
  vals.countP (fun c => (coerceCell c).isSome)

/-- The raw-text fallback test of `format_table_br` (app.py line 378):
`non_null == 0 or (num_ok / max(non_null, 1)) < 0.60`.  The float literal
`0.60` is modelled as the exact rational 3/5 (the two comparisons agree
for every realistic table size). -/
def text_fallback (vals : List Cell) : Bool :=
  nonNullCount vals == 0 ||
    decide ((numOkCount vals : Rat) / ((max (nonNullCount vals) 1 : Nat) : Rat) < 3 / 5)

/-- `astype(str)` on one cell: NaN prints as `"nan"`, integral floats
with a trailing `".0"`.  The decimal digits of non-integral floats are
abstracted (no claim inspects them); text passes through. -/
def stringifyCell : Cell → String
  | Cell.na => "nan"
  | Cell.num v =>
    if v.den = 1 then toString v.num ++ ".0"
    else toString v.num ++ "/" ++ toString v.den
  | Cell.text s => s

/-- `.replace({"nan": ""})` on one cell (exact full-cell match). -/
def replaceNanStr (s : String) : String := if s = "nan" then "" else s

/-- `.str.replace(r"\.0$", "", regex=True)` on one cell. -/
def stripDot0 (s : String) : String :=
  if strEnds s ".0" then ⟨s.toList.take (s.toList.length - 2)⟩ else s

/-- `.str.replace(r"\D", "", regex=True)` on one cell. -/
def keepDigits (s : String) : String := ⟨s.toList.filter Char.isDigit⟩

/-- The raw-text rendering used by the text-preservation branch and the
low-coercibility fallback: `astype(str).replace({"nan": ""})`. -/
def rawTextCell (c : Cell) : Cell :=
  Cell.text (replaceNanStr (stringifyCell c))

/-- The identifier rendering (app.py lines 352-358): stringify, blank
out `"nan"`, strip a trailing `".0"`, keep only digits. -/
def idTextCell (c : Cell) : Cell :=
  Cell.text (keepDigits (stripDot0 (replaceNanStr (stringifyCell c))))

/- ===== format_table_br (app.py lines 333-398) ===== -/

/-- The body of the per-column loop of `format_table_br`: given the
column name and its cells, the formatted cells.  Branch order follows
the source: identifier, text-preservation by name, raw-text fallback
below the 60% numeric-coercibility threshold, then money, percent
(with the scale normalization), count, and the generic 2-decimal
number format. -/
def format_col_vals (col : String) (vals : List Cell) : List Cell :=
  if is_id_col col then
    vals.map idTextCell
  else if text_preserve col then
    vals.map rawTextCell
  else
    let serie := vals.map coerceCell
    if text_fallback vals then
      vals.map rawTextCell
    else if is_money_col col then
      serie.map (fun o => Cell.text (fmt_money_br o))
    else if is_percent_col col then
      (percent_scale serie).map (fun o => Cell.text (fmt_percent_br o))
    else if is_count_col col then
      serie.map (fun o => Cell.text (fmt_int_br o))
    else
      serie.map (fun o => Cell.text (fmt_number_br o 2))

/-- `format_table_br`: empty frames are returned as-is; otherwise the
loop reads each column of the working copy and assigns the formatted
cells back in place. -/
def format_table_br (df : DF) : DF :=
  if df.isEmptyTbl then df
  else
    df.names.foldl (fun d col => setCol d col (format_col_vals col (getCol d col))) df

/- ===== replace_acos_obj_with_roas_obj (app.py lines 278-327) ===== -/

/-- `_acos_value_to_roas` (app.py lines 278-294), applied after numeric
coercion.  The source's `try: v = float(ac)` cannot fail on an already
coerced value, so its except arm is unreachable in the model. -/
def acos_value_to_roas (ac : Option Rat) : Option Rat :=
  match ac with
  | none => none
  | some v =>
    if v = 0 then none
    else
      let acos_frac := if v > 2 then v / 100 else v
      if acos_frac ≤ 0 then none else some (1 / acos_frac)

def cellOfOption : Option Rat → Cell
  | none => Cell.na
  | some v => Cell.num v

/-- Elementwise effect of
`pd.to_numeric(df2[col], errors="coerce").map(_acos_value_to_roas)`. -/
def acosCellMap (c : Cell) : Cell :=
  cellOfOption (acos_value_to_roas (coerceCell c))

/-- `replace_acos_obj_with_roas_obj`: for every column whose
stripped-lowered name contains both "acos" and "objetivo", replace the
values by the inverted series, then rename those columns (the rename
keys are exactly the detected names). -/
def replace_acos_obj_with_roas_obj (df : DF) : DF :=
  if df.isEmptyTbl then df
  else
    let df2 := df.names.foldl
      (fun d col =>
        if acos_obj_detect col then
          setCol d col ((getCol d col).map acosCellMap)
        else d)
      df
    ⟨df2.cols.map (fun c =>
      if acos_obj_detect c.1 then (roas_col_name_from_acos_col c.1, c.2) else c)⟩

/- ===== View preparation (app.py lines 48-155) ===== -/

/-- `_drop_cols_by_norm` (app.py lines 48-52). -/
def drop_cols_by_norm (df : DF) (targets : List String) : DF :=
  if df.isEmptyTbl then df
  else ⟨df.cols.filter (fun c => !(targets.contains (norm_col c.1)))⟩

/-- `_keep_first_by_prefix` (app.py lines 55-66): keep only the first
column whose normalized name starts with one of the given strings. -/
def keep_first_by_pfx (df : DF) (pfxs : List String) : DF :=
  if df.isEmptyTbl then df
  else
    let hits := df.names.filter (fun c => pfxs.any (fun p => strStarts (norm_col c) p))
    if hits.length ≤ 1 then df
    else
      hits.tail.foldl (fun d col => ⟨d.cols.filter (fun c => !(c.1 == col))⟩) df

/-- `_reorder_next_to` (app.py lines 69-81): move `right` to the slot
immediately after `left`.  The `try`/`except ValueError` around
`cols.index(left)` is modelled by the `none` arm of `findIdx?`. -/
def reorder_next_to (df : DF) (left right : String) : DF :=
  if df.isEmptyTbl then df
  else if !(df.names.contains left && df.names.contains right) then df
  else
    match (df.names.erase right).findIdx? (fun c => c = left) with
    | none => df
    | some idx => selectCols df (insertAt (df.names.erase right) (idx + 1) right)

def actionBlock : List String := ["Acao_Recomendada", "Confianca_Dado", "Motivo"]

/-- The `ordered` local of `_enforce_action_block` (app.py lines 88-91):
the action-block labels present in the frame, in block order. -/
def orderedOf (df : DF) : List String :=
  actionBlock.filter (fun col => df.names.contains col)

/-- The `rest` local of `_enforce_action_block` (app.py line 94). -/
def restOf (df : DF) : List String :=
  df.names.filter (fun c => !((orderedOf df).contains c))

/-- `_enforce_action_block` (app.py lines 84-96): move the
recommended-action block to the end, in its fixed relative order. -/
def enforce_action_block (df : DF) : DF :=
  if df.isEmptyTbl then df
  else if (orderedOf df).isEmpty then df
  else selectCols df (restOf df ++ orderedOf df)

def roasObjPfxs : List String := ["roas_objetivo", "roas_objetivo_n", "roas_objetivo"]

/-- The `hits` local of `_keep_first_by_prefix` (app.py line 60), for the
target-return-ratio deduplication of `_reorder_roas_acos`: the column
labels whose normalized name starts with one of the target strings. -/
def objHits (df : DF) : List String :=
  df.names.filter (fun c => roasObjPfxs.any (fun p => strStarts (norm_col c) p))

/-- The `roas_obj_col` local of `_reorder_roas_acos` (app.py lines
113-114): the first surviving target-return-ratio column, if any. -/
def headRoasObj (df : DF) : Option String :=
  (df.names.filter (fun c => strStarts (norm_col c) "roas_objetivo")).head?

/-- The `roas_real_col` local of `_reorder_roas_acos` (app.py lines 117-118). -/
def headRoasReal (df : DF) : Option String :=
  (df.names.filter (fun c => norm_col c = "roas_real")).head?

/-- The `acos_real_col` local of `_reorder_roas_acos` (app.py lines 120-121). -/
def headAcosReal (df : DF) : Option String :=
  (df.names.filter (fun c => norm_col c = "acos_real")).head?

/-- `_reorder_roas_acos` (app.py lines 99-131). -/
def reorder_roas_acos (df : DF) : DF :=
  if df.isEmptyTbl then df
  else
    let df1 := keep_first_by_pfx df roasObjPfxs
    let df2 :=
      match headRoasObj df1, headRoasReal df1 with
      | some l, some r => reorder_next_to df1 l r
      | _, _ => df1
    match headRoasReal df1, headAcosReal df1 with
    | some l, some r => reorder_next_to df2 l r
    | _, _ => df2

def cpiTargets : List String := ["cpi_share", "cpi_cum", "cpi_80"]

/-- `prepare_df_for_view` (app.py lines 134-155). -/
def prepare_df_for_view (df : DF) (drop_cpi_cols drop_roas_generic : Bool) : DF :=
  if df.isEmptyTbl then df
  else
    let out := df
    let out := if drop_cpi_cols then drop_cols_by_norm out cpiTargets else out
    let out := if drop_roas_generic then drop_cols_by_norm out ["roas"] else out
    let out := reorder_roas_acos out
    enforce_action_block out

/- ===== Raising variants =====

The source has two kinds of partial primitives: reading a column that is
absent (`df[col]`, KeyError) and selecting absent labels (`df[cols]`,
KeyError).  The variants below thread those failures through
`Except String`, so that "the engine never raises" can be stated as
"the Except variant always returns `ok` of the total variant". -/

def format_table_br_E (df : DF) : Except String DF :=
  if df.isEmptyTbl then Except.ok df
  else
    df.names.foldlM
      (fun d col => do
        let v ← getColE d col
        pure (setCol d col (format_col_vals col v)))
      df

def replace_acos_obj_with_roas_obj_E (df : DF) : Except String DF :=
  if df.isEmptyTbl then Except.ok df
  else do
    let df2 ← df.names.foldlM
      (fun d col =>
        if acos_obj_detect col then do
          let v ← getColE d col
          pure (setCol d col (v.map acosCellMap))
        else pure d)
      df
    pure ⟨df2.cols.map (fun c =>
      if acos_obj_detect c.1 then (roas_col_name_from_acos_col c.1, c.2) else c)⟩

def reorder_next_to_E (df : DF) (left right : String) : Except String DF :=
  if df.isEmptyTbl then Except.ok df
  else if !(df.names.contains left && df.names.contains right) then Except.ok df
  else
    match (df.names.erase right).findIdx? (fun c => c = left) with
    | none => Except.ok df
    | some idx => selectColsE df (insertAt (df.names.erase right) (idx + 1) right)

def enforce_action_block_E (df : DF) : Except String DF :=
  if df.isEmptyTbl then Except.ok df
  else if (orderedOf df).isEmpty then Except.ok df
  else selectColsE df (restOf df ++ orderedOf df)

def reorder_roas_acos_E (df : DF) : Except String DF :=
  if df.isEmptyTbl then Except.ok df
  else do
    let df1 := keep_first_by_pfx df roasObjPfxs
    let df2 ←
      match headRoasObj df1, headRoasReal df1 with
      | some l, some r => reorder_next_to_E df1 l r
      | _, _ => pure df1
    match headRoasReal df1, headAcosReal df1 with
    | some l, some r => reorder_next_to_E df2 l r
    | _, _ => pure df2

def prepare_df_for_view_E (df : DF) (drop_cpi_cols drop_roas_generic : Bool) :
    Except String DF :=
  if df.isEmptyTbl then Except.ok df
  else do
    let out := df
    let out := if drop_cpi_cols then drop_cols_by_norm out cpiTargets else out
    let out := if drop_roas_generic then drop_cols_by_norm out ["roas"] else out
    let out ← reorder_roas_acos_E out
    enforce_action_block_E out

/- ===== Store variants =====

Python objects have identity: mutating the argument would be observable
by the caller.  The store variants make identity explicit — a store is a
list of frames and a table is passed by reference (its index).  Each
function below mirrors the source: the emptiness guard returns the
argument itself (same reference); otherwise `df.copy()` allocates a
fresh slot and every in-place column assignment writes to that fresh
slot only.  Local rebindings to pandas operations that return new frames
(drop, rename, label selection) do not touch the store and are folded
into the final allocated value. -/

def storeGet (s : List DF) (r : Nat) : DF := s.getD r ⟨[]⟩

/-- `format_table_br` on a store: guard returns the same reference;
otherwise `df_fmt = df.copy()` allocates, and each loop iteration
assigns one column of the copy in place. -/
def format_table_br_S (s : List DF) (r : Nat) : List DF × Nat :=
  let df := storeGet s r
  if df.isEmptyTbl then (s, r)
  else
    let rf := s.length
    let s1 := s ++ [df]
    (df.names.foldl
      (fun st col =>
        st.set rf (setCol (storeGet st rf) col (format_col_vals col (getCol (storeGet st rf) col))))
      s1,
     rf)

/-- `replace_acos_obj_with_roas_obj` on a store: `df2 = df.copy()`
allocates, detected columns are assigned in place, and the final
`df2.rename(...)` (a new frame) is allocated when any rename happens. -/
def replace_acos_obj_with_roas_obj_S (s : List DF) (r : Nat) : List DF × Nat :=
  let df := storeGet s r
  if df.isEmptyTbl then (s, r)
  else
    let rf := s.length
    let s1 := s ++ [df]
    let s2 := df.names.foldl
      (fun st col =>
        if acos_obj_detect col then
          st.set rf (setCol (storeGet st rf) col ((getCol (storeGet st rf) col).map acosCellMap))
        else st)
      s1
    if df.names.any acos_obj_detect then
      (s2 ++ [⟨(storeGet s2 rf).cols.map (fun c =>
        if acos_obj_detect c.1 then (roas_col_name_from_acos_col c.1, c.2) else c)⟩],
       s2.length)
    else (s2, rf)

/-- `prepare_df_for_view` on a store: guard returns the same reference;
otherwise `out = df.copy()` starts a chain of pure frame-returning
operations whose final value is allocated fresh. -/
def prepare_df_for_view_S (s : List DF) (r : Nat) (drop_cpi_cols drop_roas_generic : Bool) :
    List DF × Nat :=
  let df := storeGet s r
  if df.isEmptyTbl then (s, r)
  else (s ++ [prepare_df_for_view df drop_cpi_cols drop_roas_generic], s.length)

/- ===== General lemmas about the DataFrame primitives ===== -/

lemma find?_append_cons_self {pre rest : List (String × List Cell)}
    {c : String × List Cell} (h : c.1 ∉ pre.map Prod.fst) :
    (pre ++ c :: rest).find? (fun x => x.1 = c.1) = some c := by
  induction pre with
  | nil => simp
  | cons a t ih =>
    have ha : ¬ (a.1 = c.1) := fun he => h (by simp [he])
    simp only [List.cons_append]
    rw [List.find?_cons_of_neg _ (by simpa using ha)]
    exact ih (fun hm => h (by simp [hm]))

lemma getCol_append_cons {pre rest : List (String × List Cell)}
    {c : String × List Cell} (h : c.1 ∉ pre.map Prod.fst) :
    getCol ⟨pre ++ c :: rest⟩ c.1 = c.2 := by
  unfold getCol
  rw [find?_append_cons_self h]

lemma setColList_append_cons {pre rest : List (String × List Cell)}
    {c : String × List Cell} (v : List Cell) (h : c.1 ∉ pre.map Prod.fst) :
    setColList (pre ++ c :: rest) c.1 v = pre ++ (c.1, v) :: rest := by
  induction pre with
  | nil => simp [setColList]
  | cons a t ih =>
    have ha : ¬ (a.1 = c.1) := fun he => h (by simp [he])
    simp only [List.cons_append, setColList, ha, if_false, List.append_eq]
    rw [ih (fun hm => h (by simp [hm]))]

/-- One generic description of the in-place column-update loops of the
source: iterating `df[col] = f(col, df[col])` over the (distinct) column
labels, with an optional per-column guard `g`, is the columnwise map. -/
lemma foldl_guard_update (g : String → Bool) (f : String → List Cell → List Cell) :
    ∀ (post pre : List (String × List Cell)),
      ((pre ++ post).map Prod.fst).Nodup →
      ((post.map Prod.fst).foldl
        (fun d col => if g col then setCol d col (f col (getCol d col)) else d)
        ⟨pre ++ post⟩) =
      ⟨pre ++ post.map (fun c => if g c.1 then (c.1, f c.1 c.2) else c)⟩ := by
  intro post
  induction post with
  | nil => intro pre _; simp
  | cons c rest ih =>
    intro pre hnd
    have hc : c.1 ∉ pre.map Prod.fst := by
      have := hnd
      simp only [List.map_append, List.map_cons, List.nodup_append] at this
      intro hmem
      exact this.2.2 hmem (by simp)
    have hget : getCol ⟨pre ++ c :: rest⟩ c.1 = c.2 := getCol_append_cons hc
    have hset : ∀ v, setCol ⟨pre ++ c :: rest⟩ c.1 v = ⟨pre ++ (c.1, v) :: rest⟩ := by
      intro v
      unfold setCol
      rw [setColList_append_cons v hc]
    simp only [List.map_cons, List.foldl_cons]
    by_cases hg : g c.1
    · rw [if_pos hg, hget, hset]
      have hnd2 : (((pre ++ [(c.1, f c.1 c.2)]) ++ rest).map Prod.fst).Nodup := by
        have : ((pre ++ [(c.1, f c.1 c.2)]) ++ rest).map Prod.fst
            = (pre ++ c :: rest).map Prod.fst := by
          simp
        rw [this]; exact hnd
      have := ih (pre ++ [(c.1, f c.1 c.2)]) (by simpa using hnd2)
      simp only [List.append_assoc, List.singleton_append] at this
      rw [this]
      simp [hg]
    · rw [if_neg hg]
      have := ih (pre ++ [c]) (by simpa using hnd)
      simp only [List.append_assoc, List.singleton_append] at this
      rw [this]
      simp [hg]

/-- Under the data-model precondition (unique column labels), the
formatting loop is the columnwise map of `format_col_vals`. -/
lemma format_table_br_cols (df : DF) (hnd : df.names.Nodup)
    (hne : df.isEmptyTbl = false) :
    (format_table_br df).cols = df.cols.map (fun c => (c.1, format_col_vals c.1 c.2)) := by
  unfold format_table_br
  rw [hne]
  simp only [Bool.false_eq_true, if_false]
  have h := foldl_guard_update (fun _ => true) format_col_vals df.cols [] (by simpa [DF.names] using hnd)
  simp only [List.nil_append, if_pos] at h
  have hdf : (⟨df.cols⟩ : DF) = df := rfl
  rw [hdf] at h
  rw [show df.names = df.cols.map Prod.fst from rfl]
  rw [h]

/-- Under unique labels, `replace_acos_obj_with_roas_obj` maps every
detected column to its inverted, renamed column and keeps the rest. -/
lemma replace_acos_cols (df : DF) (hnd : df.names.Nodup)
    (hne : df.isEmptyTbl = false) :
    (replace_acos_obj_with_roas_obj df).cols
      = df.cols.map (fun c =>
          if acos_obj_detect c.1 then
            (roas_col_name_from_acos_col c.1, c.2.map acosCellMap)
          else c) := by
  unfold replace_acos_obj_with_roas_obj
  rw [hne]
  simp only [Bool.false_eq_true, if_false]
  have h := foldl_guard_update acos_obj_detect (fun _ v => v.map acosCellMap) df.cols []
    (by simpa [DF.names] using hnd)
  simp only [List.nil_append] at h
  have hdf : (⟨df.cols⟩ : DF) = df := rfl
  rw [hdf] at h
  rw [show df.names = df.cols.map Prod.fst from rfl]
  rw [h]
  rw [List.map_map]
  apply List.map_congr_left
  intro c _
  by_cases hg : acos_obj_detect c.1
  · simp [Function.comp, hg]
  · simp [Function.comp, hg]

/- ===== Lemmas about series_max / percent_scale ===== -/

lemma series_max_eq_none_iff (l : List Rat) : series_max l = none ↔ l = [] := by
  cases l with
  | nil => simp [series_max]
  | cons x xs =>
    simp only [series_max]
    cases series_max xs <;> simp

lemma series_max_is_ub {l : List Rat} {m : Rat} (h : series_max l = some m) :
    ∀ v ∈ l, v ≤ m := by
  induction l generalizing m with
  | nil => simp [series_max] at h
  | cons x xs ih =>
    simp only [series_max] at h
    cases hx : series_max xs with
    | none =>
      rw [hx] at h
      have hxs : xs = [] := (series_max_eq_none_iff xs).1 hx
      cases h
      simp [hxs]
    | some m2 =>
      rw [hx] at h
      cases h
      intro v hv
      rcases List.mem_cons.1 hv with rfl | hv
      · exact le_max_left _ _
      · exact le_trans (ih hx v hv) (le_max_right _ _)

lemma series_max_mem {l : List Rat} {m : Rat} (h : series_max l = some m) :
    m ∈ l := by
  induction l generalizing m with
  | nil => simp [series_max] at h
  | cons x xs ih =>
    simp only [series_max] at h
    cases hx : series_max xs with
    | none => rw [hx] at h; cases h; simp
    | some m2 =>
      rw [hx] at h
      cases h
      rcases max_choice x m2 with hm | hm
      · rw [hm]; simp
      · rw [hm]; exact List.mem_cons_of_mem _ (ih hx)

lemma percent_scale_getElem_none {vs : List (Option Rat)} {i : Nat}
    (h : vs[i]? = some none) : (percent_scale vs)[i]? = some none := by
  unfold percent_scale
  cases series_max (vs.filterMap id) with
  | none => exact h
  | some m =>
    by_cases hm : m ≤ 2
    · simp only [hm, if_true, List.getElem?_map, h, Option.map_some]
      rfl
    · simpa [hm] using h

/- ===== C1 ===== -/

/-- C1: for every cell of a detected cost-ratio column (name containing
both "acos" and "objetivo", case-insensitive), the inversion performed by
`replace_acos_obj_with_roas_obj` maps the coerced value `v` to: missing
when `v` is missing, non-coercible or zero; `100 / v` when `v > 2`;
missing when `v ≤ 0`; and `1 / v` when `0 < v ≤ 2`.  The detected column
appears in the output renamed, with exactly this elementwise map. -/
theorem claim_C1 (df : DF) (colName : String) (vals : List Cell)
    (hnd : df.names.Nodup) (hne : df.isEmptyTbl = false)
    (hmem : (colName, vals) ∈ df.cols) (hdet : acos_obj_detect colName = true) :
    (roas_col_name_from_acos_col colName, vals.map acosCellMap)
      ∈ (replace_acos_obj_with_roas_obj df).cols
    ∧ ∀ cell : Cell,
        acosCellMap cell = cellOfOption (
          match coerceCell cell with
          | none => none
          | some v =>
            if v = 0 then none
            else if 2 < v then some (100 / v)
            else if v ≤ 0 then none
            else some (1 / v)) := by
  constructor
  · rw [replace_acos_cols df hnd hne]
    have hm := List.mem_map_of_mem
      (fun c => if acos_obj_detect c.1 then
          (roas_col_name_from_acos_col c.1, c.2.map acosCellMap) else c) hmem
    simpa [hdet] using hm
  · intro cell
    unfold acosCellMap acos_value_to_roas
    cases hco : coerceCell cell with
    | none => rfl
    | some v =>
      simp only
      by_cases h0 : v = 0
      · simp [h0]
      · by_cases h2 : v > 2
        · have hv : (0 : Rat) < v := by linarith
          have hfrac : ¬ (v / 100 ≤ 0) := by
            push_neg
            positivity
          simp [h0, h2, hfrac, one_div_div]
        · by_cases hle : v ≤ 0
          · simp [h0, h2, hle]
          · simp [h0, h2, hle]

/-- Witness for C1 at the spec scenario `"ACOS Objetivo" = [25, 50, 0, missing]`. -/
theorem claim_C1_witness :
    ("ROAS objetivo", [Cell.num 4, Cell.num 2, Cell.na, Cell.na])
      ∈ (replace_acos_obj_with_roas_obj
          ⟨[("ACOS Objetivo", [Cell.num 25, Cell.num 50, Cell.num 0, Cell.na])]⟩).cols := by
  have h := (claim_C1
    ⟨[("ACOS Objetivo", [Cell.num 25, Cell.num 50, Cell.num 0, Cell.na])]⟩
    "ACOS Objetivo" [Cell.num 25, Cell.num 50, Cell.num 0, Cell.na]
    (by decide) (by decide) (by decide) (by decide)).1
  have he : ("ROAS objetivo", [Cell.num 4, Cell.num 2, Cell.na, Cell.na])
      = (roas_col_name_from_acos_col "ACOS Objetivo",
         [Cell.num 25, Cell.num 50, Cell.num 0, Cell.na].map acosCellMap) := by
    decide
  rw [he]
  exact h

/- ===== C2 ===== -/

/-- C2: the percent scale normalization of `format_table_br` multiplies
every coerced value by 100 exactly when the maximum of the non-missing
coerced values exists and is at most 2; when some non-missing value
exceeds 2 (or no non-missing value exists) the series is unchanged.  The
decision is column-wide.  Under the branch conditions of the formatting
loop, a Percent-classified column is rendered exactly through this
normalization. -/
theorem claim_C2 (vs : List (Option Rat)) :
    (vs.filterMap id ≠ [] → (∀ v ∈ vs.filterMap id, v ≤ 2) →
      percent_scale vs = vs.map (Option.map (fun v => v * 100)))
    ∧ ((∃ v ∈ vs.filterMap id, 2 < v) → percent_scale vs = vs)
    ∧ (vs.filterMap id = [] → percent_scale vs = vs)
    ∧ (∀ (colName : String) (vals : List Cell),
        is_id_col colName = false → text_preserve colName = false →
        text_fallback vals = false → is_money_col colName = false →
        is_percent_col colName = true →
        format_col_vals colName vals
          = (percent_scale (vals.map coerceCell)).map
              (fun o => Cell.text (fmt_percent_br o))) := by
  refine ⟨?_, ?_, ?_, ?_⟩
  · intro hne hle
    unfold percent_scale
    cases hmax : series_max (vs.filterMap id) with
    | none => exact absurd ((series_max_eq_none_iff _).1 hmax) hne
    | some m =>
      have : m ≤ 2 := hle m (series_max_mem hmax)
      dsimp only
      rw [if_pos this]
  · intro ⟨v, hv, h2⟩
    unfold percent_scale
    cases hmax : series_max (vs.filterMap id) with
    | none => rfl
    | some m =>
      have : ¬ (m ≤ 2) := by
        have := series_max_is_ub hmax v hv
        linarith
      dsimp only
      rw [if_neg this]
  · intro he
    unfold percent_scale
    rw [he]
    rfl
  · intro colName vals hid htp hfb hmoney hpct
    unfold format_col_vals
    simp [hid, htp, hfb, hmoney, hpct]

/-- Witness for C2: a fraction-scaled column is multiplied by 100, a
percentage-scaled one is left unchanged, and the `ACOS_Real` percent
column is formatted through the normalization. -/
theorem claim_C2_witness :
    percent_scale [some (1 : Rat), none, some 2] = [some 100, none, some 200]
    ∧ percent_scale [some (1 : Rat), some 50] = [some 1, some 50]
    ∧ format_col_vals "ACOS_Real" [Cell.num (1 / 2), Cell.na]
        = [Cell.text "50,00%", Cell.text ""] := by
  refine ⟨?_, ?_, ?_⟩
  · have h := (claim_C2 [some (1 : Rat), none, some 2]).1 (by decide) (by decide)
    rw [h]
    decide
  · have h := (claim_C2 [some (1 : Rat), some 50]).2.1 ⟨50, by decide, by decide⟩
    rw [h]
  · have h := (claim_C2 []).2.2.2 "ACOS_Real" [Cell.num (1 / 2), Cell.na]
      (by decide) (by decide) (by decide) (by decide) (by decide)
    rw [h]
    decide

/- ===== C10 ===== -/

lemma mem_selectCols {df : DF} {ns : List String} {c : String × List Cell}
    (h : c ∈ (selectCols df ns).cols) : c ∈ df.cols := by
  unfold selectCols at h
  simp only [List.mem_filterMap] at h
  obtain ⟨n, _, hf⟩ := h
  exact List.mem_of_find?_eq_some hf

lemma mem_drop_cols_by_norm {df : DF} {ts : List String} {c : String × List Cell}
    (h : c ∈ (drop_cols_by_norm df ts).cols) : c ∈ df.cols := by
  unfold drop_cols_by_norm at h
  by_cases he : df.isEmptyTbl
  · rwa [if_pos he] at h
  · rw [if_neg he] at h
    exact List.mem_of_mem_filter h

lemma mem_keep_first_by_pfx {df : DF} {ps : List String} {c : String × List Cell}
    (h : c ∈ (keep_first_by_pfx df ps).cols) : c ∈ df.cols := by
  unfold keep_first_by_pfx at h
  by_cases he : df.isEmptyTbl
  · rwa [if_pos he] at h
  · rw [if_neg he] at h
    by_cases hl : (df.names.filter (fun c => ps.any (fun p => strStarts (norm_col c) p))).length ≤ 1
    · rwa [if_pos hl] at h
    · rw [if_neg hl] at h
      revert h
      generalize (df.names.filter (fun c => ps.any (fun p => strStarts (norm_col c) p))).tail = ns
      have : ∀ (ns : List String) (d : DF),
          c ∈ (ns.foldl (fun d col => ⟨d.cols.filter (fun x => !(x.1 == col))⟩) d).cols →
          c ∈ d.cols := by
        intro ns
        induction ns with
        | nil => intro d h; exact h
        | cons n rest ih =>
          intro d h
          have := ih _ h
          exact List.mem_of_mem_filter this
      exact this ns df

lemma mem_reorder_next_to {df : DF} {l r : String} {c : String × List Cell}
    (h : c ∈ (reorder_next_to df l r).cols) : c ∈ df.cols := by
  unfold reorder_next_to at h
  by_cases he : df.isEmptyTbl
  · rwa [if_pos he] at h
  · rw [if_neg he] at h
    by_cases hm : !(df.names.contains l && df.names.contains r)
    · rwa [if_pos hm] at h
    · rw [if_neg hm] at h
      split at h
      · exact h
      · exact mem_selectCols h

lemma mem_enforce_action_block {df : DF} {c : String × List Cell}
    (h : c ∈ (enforce_action_block df).cols) : c ∈ df.cols := by
  unfold enforce_action_block at h
  by_cases he : df.isEmptyTbl
  · rwa [if_pos he] at h
  · rw [if_neg he] at h
    by_cases ho : (orderedOf df).isEmpty
    · rwa [if_pos ho] at h
    · rw [if_neg ho] at h
      exact mem_selectCols h

lemma mem_reorder_roas_acos {df : DF} {c : String × List Cell}
    (h : c ∈ (reorder_roas_acos df).cols) : c ∈ df.cols := by
  unfold reorder_roas_acos at h
  by_cases he : df.isEmptyTbl
  · rwa [if_pos he] at h
  · rw [if_neg he] at h
    simp only at h
    apply @mem_keep_first_by_pfx df roasObjPfxs _
    revert h
    generalize hk : keep_first_by_pfx df roasObjPfxs = d1
    cases headRoasObj d1 with
    | none =>
      cases headRoasReal d1 with
      | none =>
        cases headAcosReal d1 with
        | none => exact fun h => h
        | some a => exact fun h => h
      | some r =>
        cases headAcosReal d1 with
        | none => exact fun h => h
        | some a => exact fun h => mem_reorder_next_to h
    | some l =>
      cases headRoasReal d1 with
      | none =>
        cases headAcosReal d1 with
        | none => exact fun h => h
        | some a => exact fun h => h
      | some r =>
        cases headAcosReal d1 with
        | none => exact fun h => mem_reorder_next_to h
        | some a => exact fun h => mem_reorder_next_to (mem_reorder_next_to h)

/-- C10: `prepare_df_for_view` only drops and reorders columns — every
column of the output is a column of the input, with the same name and
exactly the same cells in the same order. -/
theorem claim_C10 (df : DF) (a b : Bool) (c : String × List Cell)
    (h : c ∈ (prepare_df_for_view df a b).cols) : c ∈ df.cols := by
  unfold prepare_df_for_view at h
  by_cases he : df.isEmptyTbl
  · rwa [if_pos he] at h
  · rw [if_neg he] at h
    simp only at h
    have h1 := mem_enforce_action_block h
    have h2 := mem_reorder_roas_acos h1
    by_cases hb : b
    · by_cases ha : a
      · simp only [ha, hb, if_true] at h2
        exact mem_drop_cols_by_norm (mem_drop_cols_by_norm h2)
      · simp only [ha, hb, if_true, if_false] at h2
        exact mem_drop_cols_by_norm h2
    · by_cases ha : a
      · simp only [ha, hb, if_true, if_false] at h2
        exact mem_drop_cols_by_norm h2
      · simpa [ha, hb] using h2

/-- Witness for C10 on a small concrete table. -/
theorem claim_C10_witness :
    ("Receita", [Cell.num 5]) ∈
      (⟨[("Receita", [Cell.num 5]), ("CPI_Share", [Cell.num 1])]⟩ : DF).cols :=
  claim_C10 ⟨[("Receita", [Cell.num 5]), ("CPI_Share", [Cell.num 1])]⟩ true false
    ("Receita", [Cell.num 5]) (by decide)

/- ===== C8 ===== -/

lemma format_col_vals_missing (colName : String) (vals : List Cell) (i : Nat)
    (h : vals[i]? = some Cell.na ∨ vals[i]? = some (Cell.text "")) :
    (format_col_vals colName vals)[i]? = some (Cell.text "") := by
  have hco : (vals.map coerceCell)[i]? = some none := by
    rcases h with h | h <;> simp only [List.getElem?_map, h, Option.map_some] <;> rfl
  unfold format_col_vals
  by_cases h1 : is_id_col colName = true
  · rw [if_pos h1]
    simp only [List.getElem?_map]
    rcases h with h | h <;> rw [h] <;> rfl
  · rw [if_neg h1]
    by_cases h2 : text_preserve colName = true
    · rw [if_pos h2]
      simp only [List.getElem?_map]
      rcases h with h | h <;> rw [h] <;> rfl
    · rw [if_neg h2]
      dsimp only
      by_cases h3 : text_fallback vals = true
      · rw [if_pos h3]
        simp only [List.getElem?_map]
        rcases h with h | h <;> rw [h] <;> rfl
      · rw [if_neg h3]
        by_cases h4 : is_money_col colName = true
        · rw [if_pos h4]
          simp only [List.getElem?_map, hco, Option.map_some]
          rfl
        · rw [if_neg h4]
          by_cases h5 : is_percent_col colName = true
          · rw [if_pos h5]
            simp only [List.getElem?_map]
            rw [percent_scale_getElem_none hco]
            rfl
          · rw [if_neg h5]
            by_cases h6 : is_count_col colName = true
            · rw [if_pos h6]
              simp only [List.getElem?_map, hco, Option.map_some]
              rfl
            · rw [if_neg h6]
              simp only [List.getElem?_map, hco, Option.map_some]
              rfl

/-- C8: a missing cell (the missing sentinel, or the empty string, which
coerces to missing) is rendered as the empty string by `format_table_br`
in every formatting branch. -/
theorem claim_C8 (df : DF) (colName : String) (vals : List Cell) (i : Nat)
    (hnd : df.names.Nodup) (hne : df.isEmptyTbl = false)
    (hmem : (colName, vals) ∈ df.cols)
    (hcell : vals[i]? = some Cell.na ∨ vals[i]? = some (Cell.text "")) :
    ∃ vals', (colName, vals') ∈ (format_table_br df).cols
      ∧ vals'[i]? = some (Cell.text "") := by
  refine ⟨format_col_vals colName vals, ?_,
    format_col_vals_missing colName vals i hcell⟩
  rw [format_table_br_cols df hnd hne]
  have hm := List.mem_map_of_mem (fun c => (c.1, format_col_vals c.1 c.2)) hmem
  simpa using hm

/-- Witness for C8: a missing cell of a money column. -/
theorem claim_C8_witness :
    ∃ vals', ("Investimento", vals')
        ∈ (format_table_br ⟨[("Investimento", [Cell.na, Cell.num 5])]⟩).cols
      ∧ vals'[0]? = some (Cell.text "") :=
  claim_C8 ⟨[("Investimento", [Cell.na, Cell.num 5])]⟩ "Investimento"
    [Cell.na, Cell.num 5] 0 (by decide) (by decide) (by decide) (Or.inl (by decide))

/- ===== C9 ===== -/

/-- C9: a Percent-classified column is never Count-classified, and in
the formatting cascade (checked after the identifier, text-preservation,
fallback and money branches, and before the count branch) it is rendered
by the percent formatter — never as an integer count. -/
theorem claim_C9 (colName : String) (hp : is_percent_col colName = true) :
    is_count_col colName = false
    ∧ ∀ vals : List Cell, is_id_col colName = false → text_preserve colName = false →
        text_fallback vals = false → is_money_col colName = false →
        format_col_vals colName vals
          = (percent_scale (vals.map coerceCell)).map
              (fun o => Cell.text (fmt_percent_br o)) := by
  constructor
  · have hmem : det_norm colName ∈ percentCols := by
      simpa [is_percent_col] using hp
    simp only [percentCols, List.mem_cons, List.not_mem_nil, or_false] at hmem
    rcases hmem with h|h|h|h|h|h|h|h|h|h|h|h|h|h|h|h <;>
      (simp only [is_count_col]; rw [h]; decide)
  · intro vals hid htp hfb hm
    unfold format_col_vals
    simp [hid, htp, hfb, hm, hp]

/-- Witness for C9 at the percent column `CVR` holding the fraction 1/2. -/
theorem claim_C9_witness :
    is_count_col "CVR" = false
    ∧ format_col_vals "CVR" [Cell.num (1 / 2)] = [Cell.text "50,00%"] := by
  refine ⟨(claim_C9 "CVR" (by decide)).1, ?_⟩
  rw [(claim_C9 "CVR" (by decide)).2 [Cell.num (1 / 2)]
    (by decide) (by decide) (by decide) (by decide)]
  decide

/- ===== C4 ===== -/

/-- C4 as stated is false: an Identifier-named column below the numeric
threshold is rendered by the identifier branch (digits only), not as raw
text.  Column `"id"` with the single cell `"abc12"` has no coercible
cell, yet formats to `"12"`, while the raw-text rendering would keep
`"abc12"`. -/
theorem claim_C4_counterexample :
    format_table_br ⟨[("id", [Cell.text "abc12"])]⟩ = ⟨[("id", [Cell.text "12"])]⟩
    ∧ [Cell.text "abc12"].map rawTextCell = [Cell.text "abc12"]
    ∧ (⟨[("id", [Cell.text "12"])]⟩ : DF) ≠ ⟨[("id", [Cell.text "abc12"])]⟩ := by
  refine ⟨by decide, by decide, by decide⟩

/-- C4 (amended): for every nonempty table and every column whose name
is neither Identifier-classified nor contains a preserved-text token, if
the column has no non-missing cells or fewer than 60% of its non-missing
cells coerce to a number, `format_table_br` renders it as raw text
(stringified, `"nan"` blanked) — regardless of Money, Percent, or Count
classification. -/
theorem claim_C4 (df : DF) (colName : String) (vals : List Cell)
    (hnd : df.names.Nodup) (hne : df.isEmptyTbl = false)
    (hmem : (colName, vals) ∈ df.cols)
    (hid : is_id_col colName = false) (htp : text_preserve colName = false)
    (hth : nonNullCount vals = 0 ∨
      ((numOkCount vals : Rat)) / ((max (nonNullCount vals) 1 : Nat) : Rat) < 3 / 5) :
    (colName, vals.map rawTextCell) ∈ (format_table_br df).cols := by
  have hfb : text_fallback vals = true := by
    rcases hth with h | h
    · simp [text_fallback, h]
    · simp only [text_fallback, decide_eq_true h, Bool.or_true]
  rw [format_table_br_cols df hnd hne]
  have hfc : format_col_vals colName vals = vals.map rawTextCell := by
    unfold format_col_vals
    rw [if_neg (by simp [hid]), if_neg (by simp [htp])]
    dsimp only
    rw [if_pos (by simp [hfb])]
  have hm := List.mem_map_of_mem (fun c => (c.1, format_col_vals c.1 c.2)) hmem
  simpa [hfc] using hm

/-- Witness for the amended C4: a Money-named column whose only cell is
non-numeric text is rendered as raw text. -/
theorem claim_C4_witness :
    ("Investimento", [Cell.text "x"])
      ∈ (format_table_br ⟨[("Investimento", [Cell.text "x"])]⟩).cols := by
  have h := claim_C4 ⟨[("Investimento", [Cell.text "x"])]⟩ "Investimento"
    [Cell.text "x"] (by decide) (by decide) (by decide) (by decide) (by decide)
    (Or.inr (by decide))
  simpa using h

/- ===== C5 counterexample, C6 counterexample ===== -/

/-- C5 as stated is false: `prepare_df_for_view` passes empty frames
through unchanged (pandas `df.empty` is true when the row count is
zero), so a zero-row table with three target-return-ratio columns
retains all three. -/
theorem claim_C5_counterexample :
    prepare_df_for_view
        ⟨[("ROAS_Objetivo_A", []), ("ROAS_Objetivo_B", []), ("ROAS_Objetivo_C", [])]⟩
        true false
      = ⟨[("ROAS_Objetivo_A", []), ("ROAS_Objetivo_B", []), ("ROAS_Objetivo_C", [])]⟩
    ∧ ((⟨[("ROAS_Objetivo_A", []), ("ROAS_Objetivo_B", []), ("ROAS_Objetivo_C", [])]⟩ : DF).names.filter
        (fun c => roasObjPfxs.any (fun p => strStarts (norm_col c) p))).length = 3 := by
  refine ⟨by decide, by decide⟩

/-- C6 as stated is false: with two distinct column labels that both
normalize to `roas_real`, the reorder step moves a different "first
roas_real column" on the second pass, so `prepare_df_for_view` is not
idempotent. -/
theorem claim_C6_counterexample :
    prepare_df_for_view
        (prepare_df_for_view
          ⟨[("ROAS_Real", [Cell.num 1]), ("Roas Real", [Cell.num 2]),
            ("ROAS_Objetivo", [Cell.num 3])]⟩ true false)
        true false
      ≠ prepare_df_for_view
          ⟨[("ROAS_Real", [Cell.num 1]), ("Roas Real", [Cell.num 2]),
            ("ROAS_Objetivo", [Cell.num 3])]⟩ true false := by
  decide

/- ===== C3 ===== -/

lemma getElem?_set_of_ne {s : List DF} {i j : Nat} {d : DF} (h : j ≠ i) :
    (s.set i d)[j]? = s[j]? := by
  induction s generalizing i j with
  | nil => simp
  | cons a t ih =>
    cases i with
    | zero =>
      cases j with
      | zero => exact absurd rfl h
      | succ j => simp
    | succ i =>
      cases j with
      | zero => simp
      | succ j => simpa using ih (fun he => h (by rw [he]))

lemma foldl_set_getElem? {β : Type} (rf : Nat) (f : List DF → β → DF) :
    ∀ (ns : List β) (st : List DF) (j : Nat), j ≠ rf →
      (ns.foldl (fun st x => st.set rf (f st x)) st)[j]? = st[j]? := by
  intro ns
  induction ns with
  | nil => intro st j _; rfl
  | cons n t ih =>
    intro st j hj
    simp only [List.foldl_cons]
    rw [ih _ j hj, getElem?_set_of_ne hj]

lemma foldl_set_if_getElem? {β : Type} (rf : Nat) (g : β → Bool) (f : List DF → β → DF) :
    ∀ (ns : List β) (st : List DF) (j : Nat), j ≠ rf →
      (ns.foldl (fun st x => if g x then st.set rf (f st x) else st) st)[j]? = st[j]? := by
  intro ns
  induction ns with
  | nil => intro st j _; rfl
  | cons n t ih =>
    intro st j hj
    simp only [List.foldl_cons]
    rw [ih _ j hj]
    by_cases hg : g n = true
    · rw [if_pos hg, getElem?_set_of_ne hj]
    · rw [if_neg hg]

lemma foldl_set_if_length {β : Type} (rf : Nat) (g : β → Bool) (f : List DF → β → DF) :
    ∀ (ns : List β) (st : List DF),
      (ns.foldl (fun st x => if g x then st.set rf (f st x) else st) st).length
        = st.length := by
  intro ns
  induction ns with
  | nil => intro st; rfl
  | cons n t ih =>
    intro st
    simp only [List.foldl_cons]
    rw [ih]
    by_cases hg : g n = true
    · rw [if_pos hg, List.length_set]
    · rw [if_neg hg]

/-- C3 (amended): the three transformations never mutate any pre-existing
table in the store — in particular the caller's argument equals its
pre-call snapshot — and for a nonempty argument they return a freshly
allocated table.  (An empty argument is returned as-is: the same object,
unchanged; this is the corrected part of the original claim.) -/
theorem claim_C3 (s : List DF) (r : Nat) (a b : Bool) (j : Nat)
    (hj : j < s.length) :
    ((format_table_br_S s r).fst[j]? = s[j]?
      ∧ (replace_acos_obj_with_roas_obj_S s r).fst[j]? = s[j]?
      ∧ (prepare_df_for_view_S s r a b).fst[j]? = s[j]?)
    ∧ ((storeGet s r).isEmptyTbl = false →
        s.length ≤ (format_table_br_S s r).snd
        ∧ s.length ≤ (replace_acos_obj_with_roas_obj_S s r).snd
        ∧ s.length ≤ (prepare_df_for_view_S s r a b).snd) := by
  have hjr : j ≠ s.length := Nat.ne_of_lt hj
  have happ : (s ++ [storeGet s r])[j]? = s[j]? := by
    rw [List.getElem?_append, if_pos hj]
  by_cases he : (storeGet s r).isEmptyTbl = true
  · constructor
    · refine ⟨?_, ?_, ?_⟩
      · unfold format_table_br_S
        dsimp only
        rw [if_pos he]
      · unfold replace_acos_obj_with_roas_obj_S
        dsimp only
        rw [if_pos he]
      · unfold prepare_df_for_view_S
        dsimp only
        rw [if_pos he]
    · intro hne; rw [he] at hne; cases hne
  · constructor
    · refine ⟨?_, ?_, ?_⟩
      · unfold format_table_br_S
        dsimp only
        rw [if_neg he]
        dsimp only
        rw [foldl_set_getElem? s.length _ _ _ j hjr, happ]
      · unfold replace_acos_obj_with_roas_obj_S
        dsimp only
        rw [if_neg he]
        by_cases hd : (storeGet s r).names.any acos_obj_detect = true
        · rw [if_pos hd]
          dsimp only
          rw [List.getElem?_append,
            if_pos (by rw [foldl_set_if_length]; simpa using Nat.lt_succ_of_lt hj)]
          rw [foldl_set_if_getElem? s.length _ _ _ _ j hjr, happ]
        · rw [if_neg hd]
          dsimp only
          rw [foldl_set_if_getElem? s.length _ _ _ _ j hjr, happ]
      · unfold prepare_df_for_view_S
        dsimp only
        rw [if_neg he]
        dsimp only
        rw [List.getElem?_append, if_pos hj]
    · intro _
      refine ⟨?_, ?_, ?_⟩
      · unfold format_table_br_S
        dsimp only
        rw [if_neg he]
      · unfold replace_acos_obj_with_roas_obj_S
        dsimp only
        rw [if_neg he]
        by_cases hd : (storeGet s r).names.any acos_obj_detect = true
        · rw [if_pos hd]
          dsimp only
          rw [foldl_set_if_length]
          simp
        · rw [if_neg hd]
      · unfold prepare_df_for_view_S
        dsimp only
        rw [if_neg he]

/-- Witness for the amended C3 on a one-table store. -/
theorem claim_C3_witness :
    ((format_table_br_S [⟨[("A", [Cell.num 1])]⟩] 0).fst[0]?
        = [(⟨[("A", [Cell.num 1])]⟩ : DF)][0]?
      ∧ (replace_acos_obj_with_roas_obj_S [⟨[("A", [Cell.num 1])]⟩] 0).fst[0]?
        = [(⟨[("A", [Cell.num 1])]⟩ : DF)][0]?
      ∧ (prepare_df_for_view_S [⟨[("A", [Cell.num 1])]⟩] 0 true false).fst[0]?
        = [(⟨[("A", [Cell.num 1])]⟩ : DF)][0]?)
    ∧ ((storeGet [⟨[("A", [Cell.num 1])]⟩] 0).isEmptyTbl = false →
        1 ≤ (format_table_br_S [⟨[("A", [Cell.num 1])]⟩] 0).snd
        ∧ 1 ≤ (replace_acos_obj_with_roas_obj_S [⟨[("A", [Cell.num 1])]⟩] 0).snd
        ∧ 1 ≤ (prepare_df_for_view_S [⟨[("A", [Cell.num 1])]⟩] 0 true false).snd) :=
  claim_C3 [⟨[("A", [Cell.num 1])]⟩] 0 true false 0 (by decide)

/-- C3 as stated is false on empty tables: the guard returns the
caller's object itself (the same store reference), not a new table. -/
theorem claim_C3_counterexample :
    (format_table_br_S [⟨[]⟩] 0).snd = 0
    ∧ (replace_acos_obj_with_roas_obj_S [⟨[]⟩] 0).snd = 0
    ∧ (prepare_df_for_view_S [⟨[]⟩] 0 true false).snd = 0 := by
  refine ⟨by decide, by decide, by decide⟩

/- ===== C7 ===== -/

lemma find?_isSome_of_mem {l : List (String × List Cell)} {n : String}
    (h : n ∈ l.map Prod.fst) : (l.find? (fun c => c.1 = n)).isSome = true := by
  induction l with
  | nil => simp at h
  | cons a t ih =>
    by_cases ha : a.1 = n
    · rw [List.find?_cons_of_pos _ (by simpa using ha)]
      rfl
    · rw [List.find?_cons_of_neg _ (by simpa using ha)]
      refine ih ?_
      simp only [List.map_cons, List.mem_cons] at h
      rcases h with h | h
      · exact absurd h.symm ha
      · exact h

lemma getColE_ok {df : DF} {n : String} (h : n ∈ df.names) :
    getColE df n = Except.ok (getCol df n) := by
  unfold getColE getCol
  have := find?_isSome_of_mem (l := df.cols) (n := n) h
  cases hf : df.cols.find? (fun c => c.1 = n) with
  | none => rw [hf] at this; cases this
  | some c => rfl

lemma names_setCol_of_mem {df : DF} {n : String} {v : List Cell}
    (h : n ∈ df.names) : (setCol df n v).names = df.names := by
  unfold setCol DF.names
  simp only
  have : ∀ (l : List (String × List Cell)), n ∈ l.map Prod.fst →
      (setColList l n v).map Prod.fst = l.map Prod.fst := by
    intro l
    induction l with
    | nil => intro h2; simp at h2
    | cons a t ih =>
      intro h2
      by_cases ha : a.1 = n
      · simp [setColList, ha]
      · simp only [setColList, ha, if_false, List.map_cons]
        have h3 : n ∈ t.map Prod.fst := by
          simp only [List.map_cons, List.mem_cons] at h2
          rcases h2 with h2 | h2
          · exact absurd h2.symm ha
          · exact h2
        rw [ih h3]
  exact this df.cols h

lemma ok_bind {α β : Type} (x : α) (f : α → Except String β) :
    (Except.ok x >>= f) = f x := rfl

lemma format_fold_ok :
    ∀ (ns : List String) (d : DF), (∀ n ∈ ns, n ∈ d.names) →
      (ns.foldlM
        (fun d col => do
          let v ← getColE d col
          pure (setCol d col (format_col_vals col v)))
        d : Except String DF)
      = Except.ok (ns.foldl
          (fun d col => setCol d col (format_col_vals col (getCol d col))) d) := by
  intro ns
  induction ns with
  | nil => intro d _; rfl
  | cons n t ih =>
    intro d h
    have hn : n ∈ d.names := h n (by simp)
    rw [List.foldlM_cons, getColE_ok hn, ok_bind]
    have ht : ∀ m ∈ t, m ∈ (setCol d n (format_col_vals n (getCol d n))).names := by
      intro m hm
      rw [names_setCol_of_mem hn]
      exact h m (by simp [hm])
    rw [List.foldl_cons]
    exact ih _ ht

lemma replace_fold_ok :
    ∀ (ns : List String) (d : DF), (∀ n ∈ ns, n ∈ d.names) →
      (ns.foldlM
        (fun d col =>
          if acos_obj_detect col then do
            let v ← getColE d col
            pure (setCol d col (v.map acosCellMap))
          else pure d)
        d : Except String DF)
      = Except.ok (ns.foldl
          (fun d col =>
            if acos_obj_detect col then
              setCol d col ((getCol d col).map acosCellMap)
            else d) d) := by
  intro ns
  induction ns with
  | nil => intro d _; rfl
  | cons n t ih =>
    intro d h
    have hn : n ∈ d.names := h n (by simp)
    rw [List.foldlM_cons, List.foldl_cons]
    by_cases hg : acos_obj_detect n = true
    · rw [if_pos hg, if_pos hg, getColE_ok hn, ok_bind]
      have ht : ∀ m ∈ t, m ∈ (setCol d n ((getCol d n).map acosCellMap)).names := by
        intro m hm
        rw [names_setCol_of_mem hn]
        exact h m (by simp [hm])
      exact ih _ ht
    · rw [if_neg hg, if_neg hg]
      exact ih _ (fun m hm => h m (by simp [hm]))

lemma selectColsE_ok {df : DF} :
    ∀ {ns : List String}, (∀ n ∈ ns, n ∈ df.names) →
      selectColsE df ns = Except.ok (selectCols df ns) := by
  intro ns
  induction ns with
  | nil => intro _; rfl
  | cons n t ih =>
    intro h
    have hn : n ∈ df.names := h n (by simp)
    have hs := find?_isSome_of_mem (l := df.cols) (n := n) hn
    unfold selectColsE selectCols at *
    cases hf : df.cols.find? (fun c => c.1 = n) with
    | none => rw [hf] at hs; cases hs
    | some c =>
      have ihe := ih (fun m hm => h m (by simp [hm]))
      simp only [List.mapM_cons, hf, List.filterMap_cons]
      simp only [selectColsE, bind, Except.bind, pure, Except.pure] at ihe ⊢
      cases hm : t.mapM (fun n =>
          match df.cols.find? (fun c => c.1 = n) with
          | some c => Except.ok c
          | none => (Except.error "KeyError" : Except String (String × List Cell))) with
      | error e => rw [hm] at ihe; cases ihe
      | ok cs =>
        rw [hm] at ihe
        cases ihe
        rfl

lemma mem_insertAt {l : List String} {i : Nat} {a x : String}
    (h : x ∈ insertAt l i a) : x = a ∨ x ∈ l := by
  unfold insertAt at h
  rcases List.mem_append.1 h with h1 | h1
  · exact Or.inr (List.mem_of_mem_take h1)
  · rcases List.mem_cons.1 h1 with h2 | h2
    · exact Or.inl h2
    · exact Or.inr (List.mem_of_mem_drop h2)

lemma reorder_next_to_E_ok (df : DF) (l r : String) :
    reorder_next_to_E df l r = Except.ok (reorder_next_to df l r) := by
  unfold reorder_next_to_E reorder_next_to
  by_cases he : df.isEmptyTbl = true
  · rw [if_pos he, if_pos he]
  · rw [if_neg he, if_neg he]
    by_cases hm : (!(df.names.contains l && df.names.contains r)) = true
    · rw [if_pos hm, if_pos hm]
    · rw [if_neg hm, if_neg hm]
      have hb : (df.names.contains l && df.names.contains r) = true := by
        cases h2 : (df.names.contains l && df.names.contains r)
        · exact absurd (by rw [h2]; rfl) hm
        · rfl
      have hr : r ∈ df.names := by
        rw [Bool.and_eq_true] at hb
        exact List.mem_of_elem_eq_true hb.2
      cases hf : (df.names.erase r).findIdx? (fun c => c = l) with
      | none => rfl
      | some idx =>
        apply selectColsE_ok
        intro n hn
        rcases mem_insertAt hn with rfl | hn2
        · exact hr
        · exact List.mem_of_mem_erase hn2

lemma enforce_action_block_E_ok (df : DF) :
    enforce_action_block_E df = Except.ok (enforce_action_block df) := by
  unfold enforce_action_block_E enforce_action_block
  by_cases he : df.isEmptyTbl = true
  · rw [if_pos he, if_pos he]
  · rw [if_neg he, if_neg he]
    by_cases ho : (orderedOf df).isEmpty = true
    · rw [if_pos ho, if_pos ho]
    · rw [if_neg ho, if_neg ho]
      apply selectColsE_ok
      intro n hn
      rcases List.mem_append.1 hn with h1 | h1
      · exact List.mem_of_mem_filter h1
      · have := List.of_mem_filter h1
        simpa using this

lemma reorder_roas_acos_E_ok (df : DF) :
    reorder_roas_acos_E df = Except.ok (reorder_roas_acos df) := by
  unfold reorder_roas_acos_E reorder_roas_acos
  by_cases he : df.isEmptyTbl = true
  · rw [if_pos he, if_pos he]
  · rw [if_neg he, if_neg he]
    dsimp only
    cases headRoasObj (keep_first_by_pfx df roasObjPfxs) with
    | none =>
      cases headRoasReal (keep_first_by_pfx df roasObjPfxs) with
      | none => rfl
      | some rr =>
        cases headAcosReal (keep_first_by_pfx df roasObjPfxs) with
        | none => rfl
        | some ar => exact reorder_next_to_E_ok _ rr ar
    | some ob =>
      cases headRoasReal (keep_first_by_pfx df roasObjPfxs) with
      | none =>
        cases headAcosReal (keep_first_by_pfx df roasObjPfxs) with
        | none => rfl
        | some ar => rfl
      | some rr =>
        dsimp only
        rw [reorder_next_to_E_ok (keep_first_by_pfx df roasObjPfxs) ob rr, ok_bind]
        cases headAcosReal (keep_first_by_pfx df roasObjPfxs) with
        | none => rfl
        | some ar => exact reorder_next_to_E_ok _ rr ar

/-- C7: on every table — whatever its cell values — the three engine
entry points return normally: each raising primitive (column reads and
label selections, which raise KeyError in pandas on a missing label) is
only ever called on present labels, so the `Except`-threaded variants
always return `ok` of the total result, and non-coercible cells flow
into the missing sentinel instead of raising. -/
theorem claim_C7 (df : DF) (a b : Bool) :
    prepare_df_for_view_E df a b = Except.ok (prepare_df_for_view df a b)
    ∧ replace_acos_obj_with_roas_obj_E df
        = Except.ok (replace_acos_obj_with_roas_obj df)
    ∧ format_table_br_E df = Except.ok (format_table_br df) := by
  refine ⟨?_, ?_, ?_⟩
  · unfold prepare_df_for_view_E prepare_df_for_view
    by_cases he : df.isEmptyTbl = true
    · rw [if_pos he, if_pos he]
    · rw [if_neg he, if_neg he]
      dsimp only
      rw [reorder_roas_acos_E_ok, ok_bind]
      exact enforce_action_block_E_ok _
  · unfold replace_acos_obj_with_roas_obj_E replace_acos_obj_with_roas_obj
    by_cases he : df.isEmptyTbl = true
    · rw [if_pos he, if_pos he]
    · rw [if_neg he, if_neg he]
      dsimp only
      rw [replace_fold_ok df.names df (fun n hn => hn), ok_bind]
      rfl
  · unfold format_table_br_E format_table_br
    by_cases he : df.isEmptyTbl = true
    · rw [if_pos he, if_pos he]
    · rw [if_neg he, if_neg he]
      exact format_fold_ok df.names df (fun n hn => hn)

/- ===== Name-level lemmas for the view-preparation pipeline ===== -/

lemma names_mk_filter (l : List (String × List Cell)) (p : String → Bool) :
    ((⟨l.filter (fun c => p c.1)⟩ : DF)).names = ((⟨l⟩ : DF)).names.filter p := by
  show (l.filter (fun c => p c.1)).map Prod.fst = (l.map Prod.fst).filter p
  induction l with
  | nil => rfl
  | cons a t ih =>
    by_cases ha : p a.1 = true
    · simp only [List.filter_cons, List.map_cons, ha, if_true]
      simpa using ih
    · simp only [List.filter_cons, List.map_cons, ha, if_false]
      simpa [ha] using ih

lemma find?_name {l : List (String × List Cell)} {n : String}
    (h : n ∈ l.map Prod.fst) :
    ∃ c, l.find? (fun x => x.1 = n) = some c ∧ c.1 = n ∧ c ∈ l := by
  induction l with
  | nil => simp at h
  | cons a t ih =>
    by_cases ha : a.1 = n
    · exact ⟨a, by rw [List.find?_cons_of_pos _ (by simpa using ha)], ha, by simp⟩
    · have h2 : n ∈ t.map Prod.fst := by
        simp only [List.map_cons, List.mem_cons] at h
        rcases h with h | h
        · exact absurd h.symm ha
        · exact h
      obtain ⟨c, hc1, hc2, hc3⟩ := ih h2
      exact ⟨c, by rw [List.find?_cons_of_neg _ (by simpa using ha)]; exact hc1,
        hc2, by simp [hc3]⟩

lemma selectCols_names {df : DF} {ns : List String}
    (h : ∀ n ∈ ns, n ∈ df.names) : (selectCols df ns).names = ns := by
  induction ns with
  | nil => rfl
  | cons n t ih =>
    obtain ⟨c, hc1, hc2, _⟩ := find?_name (h n (by simp))
    show ((n :: t).filterMap (fun m => df.cols.find? (fun c => c.1 = m))).map Prod.fst
      = n :: t
    rw [List.filterMap_cons]
    rw [hc1]
    simp only [List.map_cons, hc2]
    have := ih (fun m hm => h m (by simp [hm]))
    exact congrArg (n :: ·) this

lemma selectCols_cons_of_ne {a : String × List Cell} {t : List (String × List Cell)}
    {ns : List String} (h : ∀ n ∈ ns, n ≠ a.1) :
    selectCols ⟨a :: t⟩ ns = selectCols ⟨t⟩ ns := by
  unfold selectCols
  apply congrArg
  apply List.filterMap_congr
  intro n hn
  rw [List.find?_cons_of_neg _ (by simpa using fun he => (h n hn) he.symm)]

lemma selectCols_self {df : DF} (hnd : df.names.Nodup) :
    selectCols df df.names = df := by
  obtain ⟨l⟩ := df
  show selectCols ⟨l⟩ ((⟨l⟩ : DF)).names = ⟨l⟩
  induction l with
  | nil => rfl
  | cons a t ih =>
    have hnd2 : ((⟨a :: t⟩ : DF)).names.Nodup := hnd
    simp only [DF.names, List.map_cons, List.nodup_cons] at hnd2
    show selectCols ⟨a :: t⟩ (a.1 :: t.map Prod.fst) = ⟨a :: t⟩
    unfold selectCols
    rw [List.filterMap_cons]
    rw [List.find?_cons_of_pos _ (by simp)]
    have hrest : selectCols ⟨a :: t⟩ (t.map Prod.fst) = selectCols ⟨t⟩ (t.map Prod.fst) :=
      selectCols_cons_of_ne (fun n hn he => hnd2.1 (he ▸ hn))
    have ht := ih hnd2.2
    unfold selectCols at hrest ht
    have : (t.map Prod.fst).filterMap (fun n => (a :: t).find? (fun c => c.1 = n)) = t := by
      have e1 := congrArg DF.cols hrest
      have e2 := congrArg DF.cols ht
      simp only at e1
      rw [e1]
      simpa [DF.names] using e2
    rw [this]

lemma isEmptyTbl_false_iff {d : DF} :
    d.isEmptyTbl = false ↔ d.cols ≠ [] ∧ ∀ c ∈ d.cols, c.2.isEmpty = false := by
  unfold DF.isEmptyTbl
  rw [Bool.or_eq_false_iff]
  constructor
  · rintro ⟨h1, h2⟩
    refine ⟨by simpa using h1, ?_⟩
    intro c hc
    rw [List.any_eq_false] at h2
    simpa using h2 c hc
  · rintro ⟨h1, h2⟩
    refine ⟨by simpa using h1, ?_⟩
    rw [List.any_eq_false]
    intro c hc
    simpa using h2 c hc

lemma names_ne_nil {d : DF} (h : d.cols ≠ []) : d.names ≠ [] := by
  intro he
  exact h (List.map_eq_nil_iff.1 he)

lemma nonempty_of_cols_sub {d1 d2 : DF} (hsub : ∀ c ∈ d2.cols, c ∈ d1.cols)
    (h1 : d1.isEmptyTbl = false) (h2 : d2.cols ≠ []) : d2.isEmptyTbl = false := by
  rw [isEmptyTbl_false_iff]
  exact ⟨h2, fun c hc => (isEmptyTbl_false_iff.1 h1).2 c (hsub c hc)⟩

/- ===== String facts about the view-preparation predicates ===== -/

lemma objP_eq_objDet (c : String) :
    roasObjPfxs.any (fun p => strStarts (norm_col c) p)
      = strStarts (norm_col c) "roas_objetivo" := by
  show (strStarts (norm_col c) "roas_objetivo" ||
    (strStarts (norm_col c) "roas_objetivo_n" ||
      (strStarts (norm_col c) "roas_objetivo" || false)))
    = strStarts (norm_col c) "roas_objetivo"
  cases h1 : strStarts (norm_col c) "roas_objetivo"
  · cases h2 : strStarts (norm_col c) "roas_objetivo_n"
    · rfl
    · exfalso
      have hp1 : ("roas_objetivo_n".toList) <+: (norm_col c).toList :=
        List.isPrefixOf_iff_prefix.1 h2
      have hp0 : ("roas_objetivo".toList) <+: ("roas_objetivo_n".toList) := by decide
      have : strStarts (norm_col c) "roas_objetivo" = true :=
        List.isPrefixOf_iff_prefix.2 (hp0.trans hp1)
      rw [h1] at this
      cases this
  · rfl

lemma objDet_not_dropped {s : String}
    (h : strStarts s "roas_objetivo" = true) :
    cpiTargets.contains s = false
    ∧ (["roas"] : List String).contains s = false := by
  constructor
  · cases hc : cpiTargets.contains s
    · rfl
    · exfalso
      have hm := List.mem_of_elem_eq_true hc
      simp only [cpiTargets, List.mem_cons, List.not_mem_nil, or_false] at hm
      rcases hm with hm | hm | hm <;> (rw [hm] at h; exact absurd h (by decide))
  · cases hc : (["roas"] : List String).contains s
    · rfl
    · exfalso
      have hm := List.mem_of_elem_eq_true hc
      simp only [List.mem_cons, List.not_mem_nil, or_false] at hm
      rw [hm] at h
      exact absurd h (by decide)

lemma objDet_of_real_false {c : String} (h : norm_col c = "roas_real") :
    strStarts (norm_col c) "roas_objetivo" = false := by
  rw [h]; decide

lemma objDet_of_acos_false {c : String} (h : norm_col c = "acos_real") :
    strStarts (norm_col c) "roas_objetivo" = false := by
  rw [h]; decide

lemma real_not_dropped {c : String} (h : norm_col c = "roas_real") :
    cpiTargets.contains (norm_col c) = false
    ∧ (["roas"] : List String).contains (norm_col c) = false := by
  rw [h]; exact ⟨by decide, by decide⟩

lemma acos_not_dropped {c : String} (h : norm_col c = "acos_real") :
    cpiTargets.contains (norm_col c) = false
    ∧ (["roas"] : List String).contains (norm_col c) = false := by
  rw [h]; exact ⟨by decide, by decide⟩

lemma block_not_roas {x : String} (hx : x ∈ actionBlock) :
    strStarts (norm_col x) "roas_objetivo" = false
    ∧ norm_col x ≠ "roas_real" ∧ norm_col x ≠ "acos_real" := by
  simp only [actionBlock, List.mem_cons, List.not_mem_nil, or_false] at hx
  rcases hx with hx | hx | hx <;> (rw [hx]; exact ⟨by decide, by decide, by decide⟩)

/- ===== Characterizations of the view-preparation stages ===== -/

lemma drop_cols_names {d : DF} {ts : List String} (hne : d.isEmptyTbl = false) :
    (drop_cols_by_norm d ts).names
      = d.names.filter (fun c => !(ts.contains (norm_col c))) := by
  unfold drop_cols_by_norm
  rw [hne]
  simp only [Bool.false_eq_true, if_false]
  exact names_mk_filter d.cols (fun c => !(ts.contains (norm_col c)))

lemma drop_cols_eq_self {d : DF} {ts : List String}
    (h : ∀ c ∈ d.names, ts.contains (norm_col c) = false) :
    drop_cols_by_norm d ts = d := by
  unfold drop_cols_by_norm
  by_cases he : d.isEmptyTbl = true
  · rw [if_pos he]
  · rw [if_neg he]
    have : d.cols.filter (fun c => !(ts.contains (norm_col c.1))) = d.cols := by
      rw [List.filter_eq_self]
      intro c hc
      rw [h c.1 (List.mem_map_of_mem Prod.fst hc)]
      rfl
    rw [this]

lemma mem_drop_cols_names {d : DF} {ts : List String} {c : String}
    (hne : d.isEmptyTbl = false) (h : c ∈ (drop_cols_by_norm d ts).names) :
    c ∈ d.names ∧ ts.contains (norm_col c) = false := by
  rw [drop_cols_names hne] at h
  refine ⟨List.mem_of_mem_filter h, ?_⟩
  have := List.of_mem_filter h
  simpa using this

lemma foldl_dropcol (ns : List String) :
    ∀ (d : DF),
      (ns.foldl (fun d col => ⟨d.cols.filter (fun c => !(c.1 == col))⟩) d).cols
        = d.cols.filter (fun c => !(ns.contains c.1)) := by
  induction ns with
  | nil =>
    intro d
    simp
  | cons n t ih =>
    intro d
    simp only [List.foldl_cons]
    rw [ih]
    simp only [List.filter_filter]
    apply List.filter_congr
    intro c _
    show (!(t.contains c.1) && !(c.1 == n)) = !((n :: t).contains c.1)
    rw [List.contains_cons]
    cases h1 : c.1 == n <;> cases h2 : t.contains c.1 <;> rfl

lemma keep_first_eq_self {d : DF} {ps : List String}
    (hlen : (d.names.filter (fun c => ps.any (fun p => strStarts (norm_col c) p))).length ≤ 1) :
    keep_first_by_pfx d ps = d := by
  unfold keep_first_by_pfx
  by_cases he : d.isEmptyTbl = true
  · rw [if_pos he]
  · rw [if_neg he]
    rw [if_pos (by simpa using hlen)]

lemma keep_first_cols {d : DF} {ps : List String} (hne : d.isEmptyTbl = false)
    (hlen : ¬ (d.names.filter (fun c => ps.any (fun p => strStarts (norm_col c) p))).length ≤ 1) :
    (keep_first_by_pfx d ps).cols
      = d.cols.filter (fun c =>
          !(((d.names.filter (fun c => ps.any (fun p => strStarts (norm_col c) p))).tail).contains c.1)) := by
  unfold keep_first_by_pfx
  rw [hne]
  simp only [Bool.false_eq_true, if_false]
  rw [if_neg (by simpa using hlen)]
  exact foldl_dropcol _ d

/- ===== Reorder lemmas ===== -/

lemma reorder_next_to_names_perm (d : DF) (l r : String) :
    (reorder_next_to d l r).names.Perm d.names := by
  unfold reorder_next_to
  by_cases he : d.isEmptyTbl = true
  · rw [if_pos he]
  · rw [if_neg he]
    by_cases hm : (!(d.names.contains l && d.names.contains r)) = true
    · rw [if_pos hm]
    · rw [if_neg hm]
      have hb : (d.names.contains l && d.names.contains r) = true := by
        cases h2 : (d.names.contains l && d.names.contains r)
        · exact absurd (by rw [h2]; rfl) hm
        · rfl
      rw [Bool.and_eq_true] at hb
      have hr : r ∈ d.names := List.mem_of_elem_eq_true hb.2
      cases hf : (d.names.erase r).findIdx? (fun c => c = l) with
      | none => exact List.Perm.refl _
      | some idx =>
        have hsel : (selectCols d (insertAt (d.names.erase r) (idx + 1) r)).names
            = insertAt (d.names.erase r) (idx + 1) r := by
          apply selectCols_names
          intro n hn
          rcases mem_insertAt hn with rfl | hn2
          · exact hr
          · exact List.mem_of_mem_erase hn2
        rw [hsel]
        have h1 : insertAt (d.names.erase r) (idx + 1) r |>.Perm (r :: d.names.erase r) := by
          unfold insertAt
          have := @List.perm_middle String r ((d.names.erase r).take (idx + 1))
            ((d.names.erase r).drop (idx + 1))
          simpa using this
        have h2 : (r :: d.names.erase r).Perm d.names :=
          (List.perm_cons_erase hr).symm
        exact h1.trans h2

lemma findIdx?_pre {p : String → Bool} {x : String} (hx : p x = true) :
    ∀ (pre post : List String) (i : Nat), (∀ y ∈ pre, p y = false) →
      List.findIdx? p (pre ++ x :: post) i = some (pre.length + i) := by
  intro pre
  induction pre with
  | nil =>
    intro post i _
    simp [List.findIdx?_cons, hx]
  | cons a t ih =>
    intro post i h
    simp only [List.cons_append, List.findIdx?_cons, h a (by simp), Bool.false_eq_true,
      if_false]
    rw [ih post (i + 1) (fun y hy => h y (by simp [hy]))]
    congr 1
    simp only [List.length_cons]
    omega

lemma insertAt_after (A : List String) (l r : String) (ys : List String) :
    insertAt (A ++ l :: ys) (A.length + 1) r = A ++ l :: r :: ys := by
  induction A with
  | nil => rfl
  | cons a t ih =>
    show a :: insertAt (t ++ l :: ys) (t.length + 1) r = a :: (t ++ l :: r :: ys)
    rw [ih]

lemma contains_eq_false_of_not_mem {l : List String} {x : String} (h : x ∉ l) :
    l.contains x = false := by
  cases hc : l.contains x
  · rfl
  · exact absurd (List.mem_of_elem_eq_true hc) h

lemma contains_eq_true_of_mem {l : List String} {x : String} (h : x ∈ l) :
    l.contains x = true :=
  List.elem_eq_true_of_mem h

lemma reorder_next_to_id {d : DF} {l r : String} (hne : d.isEmptyTbl = false)
    (hnd : d.names.Nodup) {xs ys : List String}
    (hsplit : d.names = xs ++ l :: r :: ys) :
    reorder_next_to d l r = d := by
  have hl : l ∈ d.names := by rw [hsplit]; simp
  have hr : r ∈ d.names := by rw [hsplit]; simp
  have hnd2 := hsplit ▸ hnd
  have hrxs : r ∉ xs := by
    intro hmem
    have := List.nodup_append.1 hnd2
    exact this.2.2 hmem (by simp)
  have hlr : l ≠ r := by
    have := List.nodup_append.1 hnd2
    have h2 := this.2.1
    simp only [List.nodup_cons] at h2
    intro he
    exact h2.1 (by simp [he])
  have hlxs : l ∉ xs := by
    intro hmem
    have := List.nodup_append.1 hnd2
    exact this.2.2 hmem (by simp)
  unfold reorder_next_to
  rw [hne]
  simp only [Bool.false_eq_true, if_false]
  rw [if_neg (by
    rw [contains_eq_true_of_mem hl, contains_eq_true_of_mem hr]
    simp)]
  have herase : d.names.erase r = xs ++ l :: ys := by
    rw [hsplit, List.erase_append_right _ hrxs, List.erase_cons_tail (by simpa using hlr),
      List.erase_cons_head]
  have hfind : (d.names.erase r).findIdx? (fun c => c = l) = some xs.length := by
    rw [herase]
    have := findIdx?_pre (p := fun c => decide (c = l)) (x := l) (by simp) xs ys 0
      (fun y hy => by
        simp only [decide_eq_false_iff_not]
        intro he
        exact hlxs (he ▸ hy))
    simpa using this
  rw [hfind]
  dsimp only
  rw [herase, insertAt_after, ← hsplit]
  exact selectCols_self hnd

lemma reorder_next_to_adj {d : DF} {l r : String} (hne : d.isEmptyTbl = false)
    (hnd : d.names.Nodup) (hl : l ∈ d.names) (hr : r ∈ d.names) (hlr : l ≠ r) :
    ∃ xs ys, (reorder_next_to d l r).names = xs ++ l :: r :: ys := by
  unfold reorder_next_to
  rw [hne]
  simp only [Bool.false_eq_true, if_false]
  rw [if_neg (by
    rw [contains_eq_true_of_mem hl, contains_eq_true_of_mem hr]
    simp)]
  have hle : l ∈ d.names.erase r := List.mem_erase_of_ne hlr |>.2 hl
  obtain ⟨xs, ys, hsplit, hxs⟩ :
      ∃ xs ys, d.names.erase r = xs ++ l :: ys ∧ l ∉ xs := by
    obtain ⟨xs, ys, h⟩ := List.append_of_mem hle
    by_cases hx : l ∈ xs
    · obtain ⟨xs1, ys1, h1⟩ := List.append_of_mem hx
      exfalso
      have hnde : (d.names.erase r).Nodup := List.Nodup.erase r hnd
      rw [h, h1] at hnde
      simp only [List.append_assoc, List.cons_append, List.nodup_append] at hnde
      have h2 := hnde.2.1
      simp only [List.nodup_cons] at h2
      exact h2.1 (by simp)
    · exact ⟨xs, ys, h, hx⟩
  have hfind : (d.names.erase r).findIdx? (fun c => c = l) = some xs.length := by
    rw [hsplit]
    have := findIdx?_pre (p := fun c => decide (c = l)) (x := l) (by simp) xs ys 0
      (fun y hy => by
        simp only [decide_eq_false_iff_not]
        intro he
        exact hxs (he ▸ hy))
    simpa using this
  rw [hfind]
  dsimp only
  rw [hsplit, insertAt_after]
  refine ⟨xs, ys, ?_⟩
  apply selectCols_names
  intro n hn
  simp only [List.mem_append, List.mem_cons] at hn
  rcases hn with hn | hn | hn | hn
  · exact List.mem_of_mem_erase (by rw [hsplit]; simp [hn])
  · exact hn ▸ hl
  · exact hn ▸ hr
  · exact List.mem_of_mem_erase (by rw [hsplit]; simp [hn])

lemma reorder_next_to_triple {d : DF} {l r a2 : String} (hne : d.isEmptyTbl = false)
    (hnd : d.names.Nodup) {xs ys : List String}
    (hsplit : d.names = xs ++ l :: r :: ys)
    (ha : a2 ∈ d.names) (hal : a2 ≠ l) (har : a2 ≠ r) :
    ∃ xs2 ys2, (reorder_next_to d r a2).names = xs2 ++ l :: r :: a2 :: ys2 := by
  have hr : r ∈ d.names := by rw [hsplit]; simp
  have hnd2 := hsplit ▸ hnd
  have hnda := List.nodup_append.1 hnd2
  have hndc := hnda.2.1
  simp only [List.nodup_cons] at hndc
  have hrxs : r ∉ xs := fun hmem => hnda.2.2 hmem (by simp)
  have hlxs : l ∉ xs := fun hmem => hnda.2.2 hmem (by simp)
  have hlr : l ≠ r := fun he => hndc.1 (by simp [he])
  have hrys : r ∉ ys := hndc.2.1
  unfold reorder_next_to
  rw [hne]
  simp only [Bool.false_eq_true, if_false]
  rw [if_neg (by
    rw [contains_eq_true_of_mem hr, contains_eq_true_of_mem ha]
    simp)]
  have hmem : a2 ∈ xs ∨ a2 ∈ ys := by
    have := hsplit ▸ ha
    simp only [List.mem_append, List.mem_cons] at this
    rcases this with h | h | h | h
    · exact Or.inl h
    · exact absurd h hal
    · exact absurd h har
    · exact Or.inr h
  rcases hmem with hma | hma
  · have herase : d.names.erase a2 = (xs.erase a2 ++ [l]) ++ r :: ys := by
      rw [hsplit, List.erase_append_left _ hma]
      simp
    have hfind : (d.names.erase a2).findIdx? (fun c => c = r) = some (xs.erase a2 ++ [l]).length := by
      rw [herase]
      have := findIdx?_pre (p := fun c => decide (c = r)) (x := r) (by simp)
        (xs.erase a2 ++ [l]) ys 0
        (fun y hy => by
          simp only [decide_eq_false_iff_not]
          intro he
          subst he
          rcases List.mem_append.1 hy with h2 | h2
          · exact hrxs (List.mem_of_mem_erase h2)
          · simp only [List.mem_singleton] at h2
            exact hlr h2.symm)
      simpa using this
    rw [hfind]
    dsimp only
    have hsel : ∀ K : Nat, (selectCols d (insertAt (d.names.erase a2) K a2)).names
        = insertAt (d.names.erase a2) K a2 := by
      intro K
      apply selectCols_names
      intro n hn
      rcases mem_insertAt hn with rfl | hn2
      · exact ha
      · exact List.mem_of_mem_erase hn2
    rw [hsel, herase, insertAt_after]
    exact ⟨xs.erase a2, ys, by simp⟩
  · have haxs : a2 ∉ xs := by
      intro hmem
      have := hsplit ▸ hnd
      have h2 := List.nodup_append.1 this
      exact h2.2.2 hmem (by simp [hma])
    have herase : d.names.erase a2 = (xs ++ [l]) ++ r :: ys.erase a2 := by
      rw [hsplit, List.erase_append_right _ haxs,
        List.erase_cons_tail (by simpa using fun he => hal he.symm),
        List.erase_cons_tail (by simpa using fun he => har he.symm)]
      simp
    have hfind : (d.names.erase a2).findIdx? (fun c => c = r) = some (xs ++ [l]).length := by
      rw [herase]
      have := findIdx?_pre (p := fun c => decide (c = r)) (x := r) (by simp)
        (xs ++ [l]) (ys.erase a2) 0
        (fun y hy => by
          simp only [decide_eq_false_iff_not]
          intro he
          subst he
          rcases List.mem_append.1 hy with h2 | h2
          · exact hrxs h2
          · simp only [List.mem_singleton] at h2
            exact hlr h2.symm)
      simpa using this
    rw [hfind]
    dsimp only
    have hsel : ∀ K : Nat, (selectCols d (insertAt (d.names.erase a2) K a2)).names
        = insertAt (d.names.erase a2) K a2 := by
      intro K
      apply selectCols_names
      intro n hn
      rcases mem_insertAt hn with rfl | hn2
      · exact ha
      · exact List.mem_of_mem_erase hn2
    rw [hsel, herase, insertAt_after]
    exact ⟨xs, ys.erase a2, by simp⟩

/- ===== Enforce-action-block lemmas ===== -/

lemma mem_orderedOf_actionBlock {d : DF} {x : String} (h : x ∈ orderedOf d) :
    x ∈ actionBlock := by
  have h2 : x ∈ actionBlock.filter (fun col => d.names.contains col) := h
  exact List.mem_of_mem_filter h2

lemma mem_orderedOf_names {d : DF} {x : String} (h : x ∈ orderedOf d) :
    x ∈ d.names := by
  have h2 : x ∈ actionBlock.filter (fun col => d.names.contains col) := h
  have h3 := List.of_mem_filter h2
  exact List.mem_of_elem_eq_true h3

lemma orderedOf_nodup (d : DF) : (orderedOf d).Nodup := by
  have : (actionBlock.filter (fun col => d.names.contains col)).Nodup :=
    List.Nodup.filter _ (by decide)
  exact this

lemma enforce_names {d : DF} (hne : d.isEmptyTbl = false)
    (hord : (orderedOf d).isEmpty = false) :
    (enforce_action_block d).names = restOf d ++ orderedOf d := by
  unfold enforce_action_block
  rw [hne, hord]
  simp only [Bool.false_eq_true, if_false]
  apply selectCols_names
  intro n hn
  rcases List.mem_append.1 hn with h1 | h1
  · exact List.mem_of_mem_filter h1
  · exact mem_orderedOf_names h1

lemma enforce_names_perm (d : DF) (hnd : d.names.Nodup) :
    (enforce_action_block d).names.Perm d.names := by
  by_cases he : d.isEmptyTbl = true
  · unfold enforce_action_block
    rw [if_pos he]
  · have hne : d.isEmptyTbl = false := by
      cases h : d.isEmptyTbl
      · rfl
      · exact absurd h he
    by_cases ho : (orderedOf d).isEmpty = true
    · unfold enforce_action_block
      rw [hne]
      simp only [Bool.false_eq_true, if_false]
      rw [if_pos ho]
    · have hord : (orderedOf d).isEmpty = false := by
        cases h : (orderedOf d).isEmpty
        · rfl
        · exact absurd h ho
      rw [enforce_names hne hord]
      have h1 : (restOf d ++ d.names.filter (fun c => (orderedOf d).contains c)).Perm d.names := by
        have := List.filter_append_perm (fun c => !((orderedOf d).contains c)) d.names
        have heq : d.names.filter (fun x => !(!((orderedOf d).contains x)))
            = d.names.filter (fun c => (orderedOf d).contains c) := by
          apply List.filter_congr
          intro c _
          rw [Bool.not_not]
        rw [heq] at this
        exact this
      have h2 : (orderedOf d).Perm (d.names.filter (fun c => (orderedOf d).contains c)) := by
        rw [List.perm_ext_iff_of_nodup (orderedOf_nodup d) (List.Nodup.filter _ hnd)]
        intro x
        constructor
        · intro hx
          exact List.mem_filter.2 ⟨mem_orderedOf_names hx, contains_eq_true_of_mem hx⟩
        · intro hx
          exact List.mem_of_elem_eq_true (List.mem_filter.1 hx).2
      exact (List.Perm.append_left (restOf d) h2).trans h1

lemma mem_restOf {d : DF} {x : String} (h : x ∈ restOf d) :
    x ∈ d.names ∧ x ∉ orderedOf d := by
  refine ⟨List.mem_of_mem_filter h, ?_⟩
  have := List.of_mem_filter h
  simp only [Bool.not_eq_true'] at this
  intro hmem
  rw [contains_eq_true_of_mem hmem] at this
  cases this

lemma enforce_nonempty {d : DF} (hne : d.isEmptyTbl = false) :
    (enforce_action_block d).isEmptyTbl = false := by
  by_cases ho : (orderedOf d).isEmpty = true
  · unfold enforce_action_block
    rw [hne]
    simp only [Bool.false_eq_true, if_false]
    rw [if_pos ho]
    exact hne
  · have hord : (orderedOf d).isEmpty = false := by
      cases h : (orderedOf d).isEmpty
      · rfl
      · exact absurd h ho
    apply @nonempty_of_cols_sub d _ (fun c hc => mem_enforce_action_block hc) hne
    intro hcols
    have hnames := enforce_names hne hord
    rw [show (enforce_action_block d).names
        = (enforce_action_block d).cols.map Prod.fst from rfl, hcols] at hnames
    have : orderedOf d = [] := by
      cases horde : orderedOf d
      · rfl
      · rw [horde] at hnames
        exact absurd hnames.symm (by simp)
    rw [this] at hord
    cases hord

lemma filter_adj {l : List String} {p : String → Bool} {x y : String}
    {xs ys : List String} (h : l = xs ++ x :: y :: ys)
    (hx : p x = true) (hy : p y = true) :
    ∃ xs2 ys2, l.filter p = xs2 ++ x :: y :: ys2 := by
  refine ⟨xs.filter p, ys.filter p, ?_⟩
  rw [h, List.filter_append]
  simp [hx, hy]

lemma nonempty_names_iff {d : DF} : d.names ≠ [] ↔ d.cols ≠ [] := by
  constructor
  · intro h hc
    refine h ?_
    show d.cols.map Prod.fst = []
    rw [hc]
    rfl
  · intro h hn
    exact h (List.map_eq_nil_iff.1 hn)

lemma contains_congr_of_mem_iff {l1 l2 : List String}
    (h : ∀ x, x ∈ l1 ↔ x ∈ l2) (x : String) : l1.contains x = l2.contains x := by
  by_cases hx : x ∈ l1
  · rw [contains_eq_true_of_mem hx, contains_eq_true_of_mem ((h x).1 hx)]
  · rw [contains_eq_false_of_not_mem hx,
      contains_eq_false_of_not_mem (fun h2 => hx ((h x).2 h2))]

lemma orderedOf_congr {d1 d2 : DF} (h : ∀ x, x ∈ d1.names ↔ x ∈ d2.names) :
    orderedOf d1 = orderedOf d2 := by
  unfold orderedOf
  apply List.filter_congr
  intro c _
  exact contains_congr_of_mem_iff h c

lemma enforce_mem_iff {d : DF} (hne : d.isEmptyTbl = false)
    (hord : (orderedOf d).isEmpty = false) (x : String) :
    x ∈ (enforce_action_block d).names ↔ x ∈ d.names := by
  rw [enforce_names hne hord]
  constructor
  · intro hx
    rcases List.mem_append.1 hx with h1 | h1
    · exact (mem_restOf h1).1
    · exact mem_orderedOf_names h1
  · intro hx
    by_cases hm : x ∈ orderedOf d
    · exact List.mem_append.2 (Or.inr hm)
    · refine List.mem_append.2 (Or.inl ?_)
      refine List.mem_filter.2 ⟨hx, ?_⟩
      rw [contains_eq_false_of_not_mem hm]
      rfl

lemma enforce_idem (d : DF) (hnd : d.names.Nodup) :
    enforce_action_block (enforce_action_block d) = enforce_action_block d := by
  by_cases he : d.isEmptyTbl = true
  · have h0 : enforce_action_block d = d := by
      unfold enforce_action_block
      rw [if_pos he]
    rw [h0, h0]
  · have hne : d.isEmptyTbl = false := by
      cases h : d.isEmptyTbl
      · rfl
      · exact absurd h he
    by_cases ho : (orderedOf d).isEmpty = true
    · have h0 : enforce_action_block d = d := by
        unfold enforce_action_block
        rw [hne]
        simp only [Bool.false_eq_true, if_false]
        rw [if_pos ho]
      rw [h0, h0]
    · have hord : (orderedOf d).isEmpty = false := by
        cases h : (orderedOf d).isEmpty
        · rfl
        · exact absurd h ho
      have hnames : (enforce_action_block d).names = restOf d ++ orderedOf d :=
        enforce_names hne hord
      have hene : (enforce_action_block d).isEmptyTbl = false := enforce_nonempty hne
      have hmem := enforce_mem_iff hne hord
      have horde : orderedOf (enforce_action_block d) = orderedOf d :=
        orderedOf_congr hmem
      have hreste : restOf (enforce_action_block d) = restOf d := by
        unfold restOf
        rw [horde, hnames, List.filter_append]
        have h1 : (restOf d).filter (fun c => !((orderedOf d).contains c)) = restOf d := by
          rw [List.filter_eq_self]
          intro c hc
          have h2 : c ∉ orderedOf d := (mem_restOf hc).2
          rw [contains_eq_false_of_not_mem h2]
          rfl
        have h2 : (orderedOf d).filter (fun c => !((orderedOf d).contains c)) = [] := by
          rw [List.filter_eq_nil_iff]
          intro c hc
          rw [contains_eq_true_of_mem hc]
          simp
        rw [h1, h2, List.append_nil]
        rfl
      have hnodupe : (enforce_action_block d).names.Nodup := by
        rw [hnames]
        rw [List.nodup_append]
        refine ⟨List.Nodup.filter _ hnd, orderedOf_nodup d, ?_⟩
        intro x hx hmem2
        exact (mem_restOf hx).2 hmem2
      have horde2 : (orderedOf (enforce_action_block d)).isEmpty = false := by
        rw [horde]
        exact hord
      rw [show enforce_action_block (enforce_action_block d)
          = if (enforce_action_block d).isEmptyTbl = true then enforce_action_block d
            else if (orderedOf (enforce_action_block d)).isEmpty = true then
              enforce_action_block d
            else selectCols (enforce_action_block d)
              (restOf (enforce_action_block d) ++ orderedOf (enforce_action_block d))
          from rfl]
      rw [hene, horde2]
      simp only [Bool.false_eq_true, if_false]
      rw [hreste, horde, ← hnames]
      exact selectCols_self hnodupe

lemma enforce_adj {d : DF} (hne : d.isEmptyTbl = false)
    {x y : String} {xs ys : List String} (hsplit : d.names = xs ++ x :: y :: ys)
    (hx : x ∉ actionBlock) (hy : y ∉ actionBlock) :
    ∃ xs2 ys2, (enforce_action_block d).names = xs2 ++ x :: y :: ys2 := by
  by_cases ho : (orderedOf d).isEmpty = true
  · have h0 : enforce_action_block d = d := by
      unfold enforce_action_block
      rw [hne]
      simp only [Bool.false_eq_true, if_false]
      rw [if_pos ho]
    rw [h0]
    exact ⟨xs, ys, hsplit⟩
  · have hord : (orderedOf d).isEmpty = false := by
      cases h : (orderedOf d).isEmpty
      · rfl
      · exact absurd h ho
    rw [enforce_names hne hord]
    have hxo : x ∉ orderedOf d := fun hmem => hx (mem_orderedOf_actionBlock hmem)
    have hyo : y ∉ orderedOf d := fun hmem => hy (mem_orderedOf_actionBlock hmem)
    have hpx : (fun c => !((orderedOf d).contains c)) x = true := by
      simpa using hxo
    have hpy : (fun c => !((orderedOf d).contains c)) y = true := by
      simpa using hyo
    obtain ⟨xs2, ys2, hf⟩ :=
      filter_adj (p := fun c => !((orderedOf d).contains c)) hsplit hpx hpy
    refine ⟨xs2, ys2 ++ orderedOf d, ?_⟩
    show (restOf d) ++ orderedOf d = xs2 ++ x :: y :: (ys2 ++ orderedOf d)
    rw [show restOf d = d.names.filter (fun c => !((orderedOf d).contains c)) from rfl, hf]
    simp

/- ===== keep-first and the target-return-ratio hits ===== -/

lemma keep_first_names_nodup {d : DF} {ps : List String} (hnd : d.names.Nodup) :
    (keep_first_by_pfx d ps).names.Nodup := by
  by_cases he : d.isEmptyTbl = true
  · unfold keep_first_by_pfx
    rw [if_pos he]
    exact hnd
  · have hne : d.isEmptyTbl = false := by
      cases h : d.isEmptyTbl
      · rfl
      · exact absurd h he
    by_cases hl : (d.names.filter (fun c => ps.any (fun p => strStarts (norm_col c) p))).length ≤ 1
    · rw [keep_first_eq_self hl]
      exact hnd
    · have := keep_first_cols hne hl
      have hn : (keep_first_by_pfx d ps).names
          = d.names.filter (fun c =>
              !(((d.names.filter (fun c => ps.any (fun p => strStarts (norm_col c) p))).tail).contains c)) := by
        show (keep_first_by_pfx d ps).cols.map Prod.fst = _
        rw [this]
        have hx := names_mk_filter d.cols
          (fun c => !(((d.names.filter (fun c => ps.any (fun p => strStarts (norm_col c) p))).tail).contains c))
        simpa [DF.names] using hx
      rw [hn]
      exact List.Nodup.filter _ hnd

lemma keep_first_names_ge2 {d : DF} (hne : d.isEmptyTbl = false)
    (hlen : ¬ (objHits d).length ≤ 1) :
    (keep_first_by_pfx d roasObjPfxs).names
      = d.names.filter (fun c => !((objHits d).tail.contains c)) := by
  have hcols := @keep_first_cols d roasObjPfxs hne hlen
  show (keep_first_by_pfx d roasObjPfxs).cols.map Prod.fst = _
  rw [hcols]
  have hx := names_mk_filter d.cols
    (fun c => !(((d.names.filter (fun c => roasObjPfxs.any (fun p => strStarts (norm_col c) p))).tail).contains c))
  simpa [DF.names, objHits] using hx

lemma filter_swap (l : List String) (p q : String → Bool) :
    (l.filter p).filter q = (l.filter q).filter p := by
  rw [List.filter_filter, List.filter_filter]
  apply List.filter_congr
  intro c _
  rw [Bool.and_comm]

lemma keep_first_objHits {d : DF} (hnd : d.names.Nodup) (hne : d.isEmptyTbl = false)
    {h1 : String} {rest : List String} (hh : objHits d = h1 :: rest) :
    objHits (keep_first_by_pfx d roasObjPfxs) = [h1] := by
  cases rest with
  | nil =>
    rw [keep_first_eq_self (by rw [show d.names.filter (fun c => roasObjPfxs.any (fun p => strStarts (norm_col c) p)) = objHits d from rfl, hh]; simp)]
    exact hh
  | cons h2 t =>
    have hlen : ¬ (objHits d).length ≤ 1 := by
      rw [hh]
      simp
    have hnames := keep_first_names_ge2 hne hlen
    show (keep_first_by_pfx d roasObjPfxs).names.filter
      (fun c => roasObjPfxs.any (fun p => strStarts (norm_col c) p)) = [h1]
    rw [hnames]
    rw [filter_swap]
    rw [show d.names.filter (fun c => roasObjPfxs.any (fun p => strStarts (norm_col c) p)) = objHits d from rfl]
    rw [hh]
    have hhnd : (objHits d).Nodup := List.Nodup.filter _ hnd
    rw [hh] at hhnd
    simp only [List.nodup_cons] at hhnd
    have h1nt : h1 ∉ (h1 :: h2 :: t).tail := by
      simp only [List.tail_cons]
      exact hhnd.1
    simp only [List.tail_cons] at h1nt ⊢
    rw [List.filter_cons]
    rw [contains_eq_false_of_not_mem h1nt]
    simp only [Bool.not_false, if_true]
    have : (h2 :: t).filter (fun c => !((h2 :: t).contains c)) = [] := by
      rw [List.filter_eq_nil_iff]
      intro c hc
      rw [contains_eq_true_of_mem hc]
      simp
    rw [this]

lemma drop_objHits {d : DF} {ts : List String} (hne : d.isEmptyTbl = false)
    (hts : ∀ s : String, strStarts s "roas_objetivo" = true → ts.contains s = false) :
    objHits (drop_cols_by_norm d ts) = objHits d := by
  show (drop_cols_by_norm d ts).names.filter
    (fun c => roasObjPfxs.any (fun p => strStarts (norm_col c) p)) = objHits d
  rw [drop_cols_names hne, List.filter_filter]
  apply List.filter_congr
  intro c _
  cases hc : roasObjPfxs.any (fun p => strStarts (norm_col c) p)
  · rfl
  · have hdet : strStarts (norm_col c) "roas_objetivo" = true := by
      rw [← objP_eq_objDet]
      exact hc
    rw [hts (norm_col c) hdet]
    rfl

lemma reorder_roas_acos_names_perm (d : DF) :
    (reorder_roas_acos d).names.Perm (keep_first_by_pfx d roasObjPfxs).names := by
  unfold reorder_roas_acos
  by_cases he : d.isEmptyTbl = true
  · rw [if_pos he]
    have : keep_first_by_pfx d roasObjPfxs = d := by
      unfold keep_first_by_pfx
      rw [if_pos he]
    rw [this]
  · rw [if_neg he]
    dsimp only
    cases headRoasObj (keep_first_by_pfx d roasObjPfxs) with
    | none =>
      cases headRoasReal (keep_first_by_pfx d roasObjPfxs) with
      | none =>
        cases headAcosReal (keep_first_by_pfx d roasObjPfxs) with
        | none => exact List.Perm.refl _
        | some ar => exact List.Perm.refl _
      | some rr =>
        cases headAcosReal (keep_first_by_pfx d roasObjPfxs) with
        | none => exact List.Perm.refl _
        | some ar => exact reorder_next_to_names_perm _ rr ar
    | some ob =>
      cases headRoasReal (keep_first_by_pfx d roasObjPfxs) with
      | none =>
        cases headAcosReal (keep_first_by_pfx d roasObjPfxs) with
        | none => exact List.Perm.refl _
        | some ar => exact List.Perm.refl _
      | some rr =>
        cases headAcosReal (keep_first_by_pfx d roasObjPfxs) with
        | none => exact reorder_next_to_names_perm _ ob rr
        | some ar =>
          exact (reorder_next_to_names_perm _ rr ar).trans
            (reorder_next_to_names_perm _ ob rr)

lemma drop_stage {d : DF} {ts : List String} (hnd : d.names.Nodup)
    (hne : d.isEmptyTbl = false)
    (hts : ∀ s : String, strStarts s "roas_objetivo" = true → ts.contains s = false)
    (hobj : objHits d ≠ []) :
    (drop_cols_by_norm d ts).names.Nodup
    ∧ (∀ c ∈ (drop_cols_by_norm d ts).cols, c ∈ d.cols)
    ∧ (drop_cols_by_norm d ts).isEmptyTbl = false
    ∧ objHits (drop_cols_by_norm d ts) = objHits d := by
  have hobjeq : objHits (drop_cols_by_norm d ts) = objHits d := drop_objHits hne hts
  have hnd2 : (drop_cols_by_norm d ts).names.Nodup := by
    rw [drop_cols_names hne]
    exact List.Nodup.filter _ hnd
  have hsub : ∀ c ∈ (drop_cols_by_norm d ts).cols, c ∈ d.cols :=
    fun c hc => mem_drop_cols_by_norm hc
  have hne2 : (drop_cols_by_norm d ts).isEmptyTbl = false := by
    apply nonempty_of_cols_sub hsub hne
    rw [← nonempty_names_iff]
    intro hemp
    have h0 : objHits (drop_cols_by_norm d ts) = [] := by
      show (drop_cols_by_norm d ts).names.filter _ = []
      rw [hemp]
      rfl
    rw [hobjeq] at h0
    exact hobj h0
  exact ⟨hnd2, hsub, hne2, hobjeq⟩

/-- C5 (amended): for every nonempty table (the zero-row passthrough is
the corrected part) with unique labels, if at least two columns carry
the target-return-ratio name, view preparation keeps exactly the first
of them, in current column order, and drops the rest. -/
theorem claim_C5 (df : DF) (a b : Bool) (hnd : df.names.Nodup)
    (hne : df.isEmptyTbl = false) (h1 h2 : String) (t : List String)
    (hh : objHits df = h1 :: h2 :: t) :
    objHits (prepare_df_for_view df a b) = [h1] := by
  have key : ∀ (D : DF), D.names.Nodup → (∀ c ∈ D.cols, c ∈ df.cols) →
      objHits D = h1 :: h2 :: t →
      objHits (enforce_action_block (reorder_roas_acos D)) = [h1] := by
    intro D hDnd hDsub hDh
    have hDne : D.isEmptyTbl = false := by
      apply nonempty_of_cols_sub hDsub hne
      rw [← nonempty_names_iff]
      intro hemp
      have hm : h1 ∈ objHits D := by rw [hDh]; simp
      have hm2 : h1 ∈ D.names := List.mem_of_mem_filter hm
      rw [hemp] at hm2
      cases hm2
    have hK : objHits (keep_first_by_pfx D roasObjPfxs) = [h1] :=
      keep_first_objHits hDnd hDne hDh
    have hKnd : (keep_first_by_pfx D roasObjPfxs).names.Nodup :=
      keep_first_names_nodup hDnd
    have hperm1 : (reorder_roas_acos D).names.Perm
        (keep_first_by_pfx D roasObjPfxs).names := reorder_roas_acos_names_perm D
    have hRnd : (reorder_roas_acos D).names.Nodup :=
      (List.Perm.nodup_iff hperm1).2 hKnd
    have hperm2 : (enforce_action_block (reorder_roas_acos D)).names.Perm
        (reorder_roas_acos D).names := enforce_names_perm _ hRnd
    have hhitsperm : (objHits (enforce_action_block (reorder_roas_acos D))).Perm
        (objHits (keep_first_by_pfx D roasObjPfxs)) :=
      List.Perm.filter _ (hperm2.trans hperm1)
    rw [hK] at hhitsperm
    exact List.perm_singleton.1 hhitsperm
  unfold prepare_df_for_view
  rw [hne]
  simp only [Bool.false_eq_true, if_false]
  have hts1 : ∀ s : String, strStarts s "roas_objetivo" = true →
      cpiTargets.contains s = false := fun s hs => (objDet_not_dropped hs).1
  have hts2 : ∀ s : String, strStarts s "roas_objetivo" = true →
      (["roas"] : List String).contains s = false := fun s hs => (objDet_not_dropped hs).2
  cases a with
  | true =>
    obtain ⟨st1nd, st1sub, st1ne, st1obj⟩ :=
      @drop_stage df cpiTargets hnd hne hts1 (by rw [hh]; simp)
    cases b with
    | true =>
      simp only [if_true]
      obtain ⟨st2nd, st2sub, st2ne, st2obj⟩ :=
        @drop_stage _ ["roas"] st1nd st1ne hts2 (by rw [st1obj, hh]; simp)
      exact key _ st2nd (fun c hc => st1sub _ (st2sub _ hc)) (by rw [st2obj, st1obj, hh])
    | false =>
      simp only [Bool.false_eq_true, if_false, if_true]
      exact key _ st1nd st1sub (by rw [st1obj, hh])
  | false =>
    cases b with
    | true =>
      simp only [Bool.false_eq_true, if_false, if_true]
      obtain ⟨st2nd, st2sub, st2ne, st2obj⟩ :=
        @drop_stage df ["roas"] hnd hne hts2 (by rw [hh]; simp)
      exact key _ st2nd st2sub (by rw [st2obj, hh])
    | false =>
      simp only [Bool.false_eq_true, if_false]
      exact key df hnd (fun c hc => hc) hh

/-- Witness for the amended C5: three target-return-ratio columns with a
data row; only the first survives view preparation. -/
theorem claim_C5_witness :
    objHits (prepare_df_for_view
      ⟨[("ROAS_Objetivo_A", [Cell.num 1]), ("ROAS Objetivo", [Cell.num 2]),
        ("roas_objetivo_n", [Cell.num 3]), ("Motivo", [Cell.text "m"])]⟩ true false)
      = ["ROAS_Objetivo_A"] :=
  claim_C5 ⟨[("ROAS_Objetivo_A", [Cell.num 1]), ("ROAS Objetivo", [Cell.num 2]),
    ("roas_objetivo_n", [Cell.num 3]), ("Motivo", [Cell.text "m"])]⟩ true false
    (by decide) (by decide) "ROAS_Objetivo_A" "ROAS Objetivo" ["roas_objetivo_n"]
    (by decide)

/- ===== Helper lemmas for idempotence of view preparation ===== -/

lemma mem_of_head?_filter {l : List String} {p : String → Bool} {x : String}
    (h : (l.filter p).head? = some x) : x ∈ l ∧ p x = true := by
  cases hf : l.filter p with
  | nil => rw [hf] at h; cases h
  | cons y t =>
    rw [hf] at h
    have hyx : y = x := by
      simp only [List.head?_cons, Option.some_inj] at h
      exact h
    subst hyx
    have : y ∈ l.filter p := by rw [hf]; simp
    exact ⟨List.mem_of_mem_filter this, List.of_mem_filter this⟩

lemma heads_transfer {l1 l2 : List String} (hperm : l1.Perm l2)
    {p : String → Bool} (hlen : (l2.filter p).length ≤ 1) {x : String}
    (hhead : (l1.filter p).head? = some x) :
    (l2.filter p).head? = some x := by
  have hpf : (l1.filter p).Perm (l2.filter p) := hperm.filter p
  have hlen1 : (l1.filter p).length ≤ 1 := by
    rw [hpf.length_eq]
    exact hlen
  cases hf : l1.filter p with
  | nil => rw [hf] at hhead; cases hhead
  | cons y t =>
    rw [hf] at hhead hlen1
    have hyx : y = x := by
      simp only [List.head?_cons, Option.some_inj] at hhead
      exact hhead
    subst hyx
    have ht : t = [] := by
      simp only [List.length_cons] at hlen1
      cases t with
      | nil => rfl
      | cons z zs => simp at hlen1
    subst ht
    rw [hf] at hpf
    have : l2.filter p = [y] := List.perm_singleton.1 hpf.symm
    rw [this]
    rfl

lemma filter_objDet_eq_objHits (d : DF) :
    d.names.filter (fun c => strStarts (norm_col c) "roas_objetivo") = objHits d := by
  show _ = d.names.filter (fun c => roasObjPfxs.any (fun p => strStarts (norm_col c) p))
  apply List.filter_congr
  intro c _
  exact (objP_eq_objDet c).symm

lemma keep_first_objHits_len {d : DF} (hnd : d.names.Nodup)
    (hne : d.isEmptyTbl = false) :
    (objHits (keep_first_by_pfx d roasObjPfxs)).length ≤ 1 := by
  cases hh : objHits d with
  | nil =>
    rw [keep_first_eq_self (by
      rw [show d.names.filter (fun c => roasObjPfxs.any (fun p => strStarts (norm_col c) p))
        = objHits d from rfl, hh]
      simp)]
    rw [hh]
    simp
  | cons h1 rest =>
    rw [keep_first_objHits hnd hne hh]
    simp

lemma keep_first_nonempty {d : DF} (hnd : d.names.Nodup)
    (hne : d.isEmptyTbl = false) :
    (keep_first_by_pfx d roasObjPfxs).isEmptyTbl = false := by
  by_cases hl : (objHits d).length ≤ 1
  · rw [keep_first_eq_self (by
      rw [show d.names.filter (fun c => roasObjPfxs.any (fun p => strStarts (norm_col c) p))
        = objHits d from rfl]
      exact hl)]
    exact hne
  · apply nonempty_of_cols_sub (fun c hc => mem_keep_first_by_pfx hc) hne
    rw [← nonempty_names_iff, keep_first_names_ge2 hne hl]
    intro hemp
    cases hh : objHits d with
    | nil => rw [hh] at hl; exact hl (by simp)
    | cons h1 rest =>
      have hhnd : (objHits d).Nodup := List.Nodup.filter _ hnd
      rw [hh] at hhnd
      simp only [List.nodup_cons] at hhnd
      have hmem : h1 ∈ d.names := by
        have : h1 ∈ objHits d := by rw [hh]; simp
        exact List.mem_of_mem_filter this
      have hkeep : (fun c => !((objHits d).tail.contains c)) h1 = true := by
        rw [hh]
        simp only [List.tail_cons]
        rw [contains_eq_false_of_not_mem hhnd.1]
        rfl
      have : h1 ∈ d.names.filter (fun c => !((objHits d).tail.contains c)) :=
        List.mem_filter.2 ⟨hmem, hkeep⟩
      rw [hemp] at this
      cases this

lemma keep_first_names_sublist {d : DF} (hne : d.isEmptyTbl = false) :
    (keep_first_by_pfx d roasObjPfxs).names.Sublist d.names := by
  by_cases hl : (objHits d).length ≤ 1
  · rw [keep_first_eq_self (by
      rw [show d.names.filter (fun c => roasObjPfxs.any (fun p => strStarts (norm_col c) p))
        = objHits d from rfl]
      exact hl)]
  · rw [keep_first_names_ge2 hne hl]
    exact List.filter_sublist d.names

lemma drop_names_sublist (X : DF) (ts : List String) :
    (drop_cols_by_norm X ts).names.Sublist X.names := by
  by_cases he : X.isEmptyTbl = true
  · unfold drop_cols_by_norm
    rw [if_pos he]
  · rw [drop_cols_names (Bool.eq_false_iff.2 he)]
    exact List.filter_sublist X.names

lemma empty_cols_of_emptyTbl {d1 d2 : DF} (hsub : ∀ c ∈ d2.cols, c ∈ d1.cols)
    (h1 : d1.isEmptyTbl = false) (h2 : d2.isEmptyTbl = true) : d2.cols = [] := by
  by_contra h
  have := nonempty_of_cols_sub hsub h1 h
  rw [this] at h2
  cases h2

lemma reorder_roas_acos_eq_self {d : DF} (hne : d.isEmptyTbl = false)
    (hnd : d.names.Nodup) (hobj : (objHits d).length ≤ 1)
    (hA1 : ∀ o r, headRoasObj d = some o → headRoasReal d = some r →
       ∃ xs ys, d.names = xs ++ o :: r :: ys)
    (hA2 : ∀ r a2, headRoasReal d = some r → headAcosReal d = some a2 →
       ∃ xs ys, d.names = xs ++ r :: a2 :: ys) :
    reorder_roas_acos d = d := by
  have hkeep : keep_first_by_pfx d roasObjPfxs = d := keep_first_eq_self (by
    rw [show d.names.filter (fun c => roasObjPfxs.any (fun p => strStarts (norm_col c) p))
      = objHits d from rfl]
    exact hobj)
  unfold reorder_roas_acos
  rw [hne]
  simp only [Bool.false_eq_true, if_false]
  rw [hkeep]
  cases ho : headRoasObj d with
  | none =>
    cases hr : headRoasReal d with
    | none =>
      cases ha : headAcosReal d with
      | none => rfl
      | some a2 => rfl
    | some r =>
      cases ha : headAcosReal d with
      | none => rfl
      | some a2 =>
        obtain ⟨xs, ys, hsplit⟩ := hA2 r a2 hr ha
        exact reorder_next_to_id hne hnd hsplit
  | some o =>
    cases hr : headRoasReal d with
    | none =>
      cases ha : headAcosReal d with
      | none => rfl
      | some a2 => rfl
    | some r =>
      obtain ⟨xs, ys, hsplit⟩ := hA1 o r ho hr
      have hid := reorder_next_to_id hne hnd hsplit
      dsimp only
      rw [hid]
      cases ha : headAcosReal d with
      | none => rfl
      | some a2 =>
        obtain ⟨xs2, ys2, hsplit2⟩ := hA2 r a2 hr ha
        exact reorder_next_to_id hne hnd hsplit2

lemma headRoasObj_transfer {d1 d2 : DF} (hperm : d1.names.Perm d2.names)
    (hcnt : (objHits d2).length ≤ 1) {x : String}
    (hh : headRoasObj d1 = some x) : headRoasObj d2 = some x := by
  have hlen : (d2.names.filter (fun c => strStarts (norm_col c) "roas_objetivo")).length ≤ 1 := by
    rw [filter_objDet_eq_objHits]
    exact hcnt
  exact heads_transfer hperm hlen hh

lemma headRoasReal_transfer {d1 d2 : DF} (hperm : d1.names.Perm d2.names)
    (hcnt : d2.names.countP (fun c => norm_col c = "roas_real") ≤ 1) {x : String}
    (hh : headRoasReal d1 = some x) : headRoasReal d2 = some x := by
  have hlen : (d2.names.filter (fun c => norm_col c = "roas_real")).length ≤ 1 := by
    rw [← List.countP_eq_length_filter]
    exact hcnt
  exact heads_transfer hperm hlen hh

lemma headAcosReal_transfer {d1 d2 : DF} (hperm : d1.names.Perm d2.names)
    (hcnt : d2.names.countP (fun c => norm_col c = "acos_real") ≤ 1) {x : String}
    (hh : headAcosReal d1 = some x) : headAcosReal d2 = some x := by
  have hlen : (d2.names.filter (fun c => norm_col c = "acos_real")).length ≤ 1 := by
    rw [← List.countP_eq_length_filter]
    exact hcnt
  exact heads_transfer hperm hlen hh

lemma headRoasObj_mem {d : DF} {x : String} (hh : headRoasObj d = some x) :
    x ∈ d.names ∧ strStarts (norm_col x) "roas_objetivo" = true :=
  mem_of_head?_filter hh

lemma headRoasReal_mem {d : DF} {x : String} (hh : headRoasReal d = some x) :
    x ∈ d.names ∧ norm_col x = "roas_real" := by
  obtain ⟨hm, hp⟩ := mem_of_head?_filter hh
  exact ⟨hm, of_decide_eq_true hp⟩

lemma headAcosReal_mem {d : DF} {x : String} (hh : headAcosReal d = some x) :
    x ∈ d.names ∧ norm_col x = "acos_real" := by
  obtain ⟨hm, hp⟩ := mem_of_head?_filter hh
  exact ⟨hm, of_decide_eq_true hp⟩

lemma ne_of_objDet_real {o r : String}
    (ho : strStarts (norm_col o) "roas_objetivo" = true)
    (hr : norm_col r = "roas_real") : o ≠ r := by
  intro he
  rw [he, objDet_of_real_false hr] at ho
  cases ho

lemma ne_of_objDet_acos {o a2 : String}
    (ho : strStarts (norm_col o) "roas_objetivo" = true)
    (ha : norm_col a2 = "acos_real") : o ≠ a2 := by
  intro he
  rw [he, objDet_of_acos_false ha] at ho
  cases ho

lemma ne_of_real_acos {r a2 : String} (hr : norm_col r = "roas_real")
    (ha : norm_col a2 = "acos_real") : r ≠ a2 := by
  intro he
  rw [he, ha] at hr
  exact absurd hr (by decide)

lemma objDet_not_block {o : String}
    (ho : strStarts (norm_col o) "roas_objetivo" = true) : o ∉ actionBlock := by
  intro hm
  rw [(block_not_roas hm).1] at ho
  cases ho

lemma real_not_block {r : String} (hr : norm_col r = "roas_real") :
    r ∉ actionBlock :=
  fun hm => (block_not_roas hm).2.1 hr

lemma acos_not_block {a2 : String} (ha : norm_col a2 = "acos_real") :
    a2 ∉ actionBlock :=
  fun hm => (block_not_roas hm).2.2 ha

lemma drop_cols_empty_id {d : DF} (ts : List String) (h : d.isEmptyTbl = true) :
    drop_cols_by_norm d ts = d := by
  unfold drop_cols_by_norm
  rw [if_pos h]

lemma prepare_pass1_fix {D : DF} (a b : Bool) (hDnd : D.names.Nodup)
    (hreal : D.names.countP (fun c => norm_col c = "roas_real") ≤ 1)
    (hacos : D.names.countP (fun c => norm_col c = "acos_real") ≤ 1)
    (hcpi : a = true → ∀ c ∈ D.names, cpiTargets.contains (norm_col c) = false)
    (hroas : b = true → ∀ c ∈ D.names,
      (["roas"] : List String).contains (norm_col c) = false) :
    prepare_df_for_view (enforce_action_block (reorder_roas_acos D)) a b
      = enforce_action_block (reorder_roas_acos D) := by
  by_cases hDe : D.isEmptyTbl = true
  · have hre : reorder_roas_acos D = D := by
      unfold reorder_roas_acos
      rw [if_pos hDe]
    have hen : enforce_action_block D = D := by
      unfold enforce_action_block
      rw [if_pos hDe]
    rw [hre, hen]
    unfold prepare_df_for_view
    rw [if_pos hDe]
  · have hDne : D.isEmptyTbl = false := Bool.eq_false_iff.2 hDe
    set K := keep_first_by_pfx D roasObjPfxs with hK
    set R := reorder_roas_acos D with hR
    set out1 := enforce_action_block R with hO
    have hKnd : K.names.Nodup := keep_first_names_nodup hDnd
    have hKne : K.isEmptyTbl = false := keep_first_nonempty hDnd hDne
    have hKsub : K.names.Sublist D.names := keep_first_names_sublist hDne
    have hKobj : (objHits K).length ≤ 1 := keep_first_objHits_len hDnd hDne
    have hKreal : K.names.countP (fun c => norm_col c = "roas_real") ≤ 1 :=
      le_trans (hKsub.countP_le _) hreal
    have hKacos : K.names.countP (fun c => norm_col c = "acos_real") ≤ 1 :=
      le_trans (hKsub.countP_le _) hacos
    have hpRK : R.names.Perm K.names := reorder_roas_acos_names_perm D
    have hRnd : R.names.Nodup := (List.Perm.nodup_iff hpRK).2 hKnd
    have hRne : R.isEmptyTbl = false := by
      rw [hR]
      apply nonempty_of_cols_sub (fun c hc => mem_reorder_roas_acos hc) hDne
      rw [← nonempty_names_iff]
      intro hemp
      rw [hR] at hpRK
      rw [hemp] at hpRK
      exact names_ne_nil (isEmptyTbl_false_iff.1 hKne).1 hpRK.symm.eq_nil
    have hpOR : out1.names.Perm R.names := enforce_names_perm R hRnd
    have hpOK : out1.names.Perm K.names := hpOR.trans hpRK
    have hOnd : out1.names.Nodup := (List.Perm.nodup_iff hpOK).2 hKnd
    have hOne : out1.isEmptyTbl = false := enforce_nonempty hRne
    have hOobj : (objHits out1).length ≤ 1 := by
      have hp : (objHits out1).Perm (objHits K) := List.Perm.filter _ hpOK
      rw [hp.length_eq]
      exact hKobj
    have hOmemD : ∀ c ∈ out1.names, c ∈ D.names :=
      fun c hc => hKsub.subset (hpOK.subset hc)
    have hdrop1 : a = true → drop_cols_by_norm out1 cpiTargets = out1 := fun ha =>
      drop_cols_eq_self (fun c hc => hcpi ha c (hOmemD c hc))
    have hdrop2 : b = true → drop_cols_by_norm out1 ["roas"] = out1 := fun hb =>
      drop_cols_eq_self (fun c hc => hroas hb c (hOmemD c hc))
    have hA1 : ∀ o r, headRoasObj out1 = some o → headRoasReal out1 = some r →
        ∃ xs ys, out1.names = xs ++ o :: r :: ys := by
      intro o r ho hr
      have hoK : headRoasObj K = some o := headRoasObj_transfer hpOK hKobj ho
      have hrK : headRoasReal K = some r := headRoasReal_transfer hpOK hKreal hr
      obtain ⟨homem, hodet⟩ := headRoasObj_mem hoK
      obtain ⟨hrmem, hrnorm⟩ := headRoasReal_mem hrK
      have hor : o ≠ r := ne_of_objDet_real hodet hrnorm
      have hno : o ∉ actionBlock := objDet_not_block hodet
      have hnr : r ∉ actionBlock := real_not_block hrnorm
      obtain ⟨xs, ys, hsplit⟩ := reorder_next_to_adj hKne hKnd homem hrmem hor
      cases ha2 : headAcosReal K with
      | none =>
        have hRdef : R = reorder_next_to K o r := by
          rw [hR]
          unfold reorder_roas_acos
          rw [hDne]
          simp only [Bool.false_eq_true, if_false]
          rw [← hK, hoK, hrK, ha2]
        have hRne2 : (reorder_next_to K o r).isEmptyTbl = false := by
          rw [← hRdef]
          exact hRne
        have hfin := enforce_adj hRne2 hsplit hno hnr
        rw [← hRdef, ← hO] at hfin
        exact hfin
      | some a2 =>
        have hRdef : R = reorder_next_to (reorder_next_to K o r) r a2 := by
          rw [hR]
          unfold reorder_roas_acos
          rw [hDne]
          simp only [Bool.false_eq_true, if_false]
          rw [← hK, hoK, hrK, ha2]
        obtain ⟨hamem, hanorm⟩ := headAcosReal_mem ha2
        have hao : a2 ≠ o := (ne_of_objDet_acos hodet hanorm).symm
        have har : a2 ≠ r := (ne_of_real_acos hrnorm hanorm).symm
        have hd2perm : (reorder_next_to K o r).names.Perm K.names :=
          reorder_next_to_names_perm K o r
        have hd2nd : (reorder_next_to K o r).names.Nodup :=
          (List.Perm.nodup_iff hd2perm).2 hKnd
        have hd2ne : (reorder_next_to K o r).isEmptyTbl = false := by
          apply nonempty_of_cols_sub (fun c hc => mem_reorder_next_to hc) hKne
          rw [← nonempty_names_iff]
          intro hemp
          rw [hemp] at hd2perm
          exact names_ne_nil (isEmptyTbl_false_iff.1 hKne).1 hd2perm.symm.eq_nil
        have ha2d2 : a2 ∈ (reorder_next_to K o r).names := hd2perm.mem_iff.2 hamem
        obtain ⟨xs2, ys2, hsplit3⟩ :=
          reorder_next_to_triple hd2ne hd2nd hsplit ha2d2 hao har
        have hRne2 : (reorder_next_to (reorder_next_to K o r) r a2).isEmptyTbl
            = false := by
          rw [← hRdef]
          exact hRne
        have hfin := enforce_adj hRne2 hsplit3 hno hnr
        rw [← hRdef, ← hO] at hfin
        exact hfin
    have hA2 : ∀ r a2, headRoasReal out1 = some r → headAcosReal out1 = some a2 →
        ∃ xs ys, out1.names = xs ++ r :: a2 :: ys := by
      intro r a2 hr ha
      have hrK : headRoasReal K = some r := headRoasReal_transfer hpOK hKreal hr
      have haK : headAcosReal K = some a2 := headAcosReal_transfer hpOK hKacos ha
      obtain ⟨hrmem, hrnorm⟩ := headRoasReal_mem hrK
      obtain ⟨hamem, hanorm⟩ := headAcosReal_mem haK
      have hra : r ≠ a2 := ne_of_real_acos hrnorm hanorm
      have hnr : r ∉ actionBlock := real_not_block hrnorm
      have hna : a2 ∉ actionBlock := acos_not_block hanorm
      cases ho : headRoasObj K with
      | none =>
        have hRdef : R = reorder_next_to K r a2 := by
          rw [hR]
          unfold reorder_roas_acos
          rw [hDne]
          simp only [Bool.false_eq_true, if_false]
          rw [← hK, ho, hrK, haK]
        obtain ⟨xs, ys, hsplit⟩ := reorder_next_to_adj hKne hKnd hrmem hamem hra
        have hRne2 : (reorder_next_to K r a2).isEmptyTbl = false := by
          rw [← hRdef]
          exact hRne
        have hfin := enforce_adj hRne2 hsplit hnr hna
        rw [← hRdef, ← hO] at hfin
        exact hfin
      | some o =>
        obtain ⟨homem, hodet⟩ := headRoasObj_mem ho
        have hor : o ≠ r := ne_of_objDet_real hodet hrnorm
        have hao : a2 ≠ o := (ne_of_objDet_acos hodet hanorm).symm
        have hRdef : R = reorder_next_to (reorder_next_to K o r) r a2 := by
          rw [hR]
          unfold reorder_roas_acos
          rw [hDne]
          simp only [Bool.false_eq_true, if_false]
          rw [← hK, ho, hrK, haK]
        obtain ⟨xs, ys, hsplit⟩ := reorder_next_to_adj hKne hKnd homem hrmem hor
        have hd2perm : (reorder_next_to K o r).names.Perm K.names :=
          reorder_next_to_names_perm K o r
        have hd2nd : (reorder_next_to K o r).names.Nodup :=
          (List.Perm.nodup_iff hd2perm).2 hKnd
        have hd2ne : (reorder_next_to K o r).isEmptyTbl = false := by
          apply nonempty_of_cols_sub (fun c hc => mem_reorder_next_to hc) hKne
          rw [← nonempty_names_iff]
          intro hemp
          rw [hemp] at hd2perm
          exact names_ne_nil (isEmptyTbl_false_iff.1 hKne).1 hd2perm.symm.eq_nil
        have ha2d2 : a2 ∈ (reorder_next_to K o r).names := hd2perm.mem_iff.2 hamem
        obtain ⟨xs2, ys2, hsplit3⟩ :=
          reorder_next_to_triple hd2ne hd2nd hsplit ha2d2 hao hra.symm
        have hsplitR : (reorder_next_to (reorder_next_to K o r) r a2).names
            = (xs2 ++ [o]) ++ r :: a2 :: ys2 := by
          rw [hsplit3]
          simp
        have hRne2 : (reorder_next_to (reorder_next_to K o r) r a2).isEmptyTbl
            = false := by
          rw [← hRdef]
          exact hRne
        have hfin := enforce_adj hRne2 hsplitR hnr hna
        rw [← hRdef, ← hO] at hfin
        exact hfin
    have hro : reorder_roas_acos out1 = out1 :=
      reorder_roas_acos_eq_self hOne hOnd hOobj hA1 hA2
    have hen : enforce_action_block out1 = out1 := by
      rw [hO]
      exact enforce_idem R hRnd
    unfold prepare_df_for_view
    rw [hOne]
    simp only [Bool.false_eq_true, if_false]
    cases a with
    | true =>
      cases b with
      | true =>
        simp only [if_true]
        rw [hdrop1 rfl, hdrop2 rfl, hro]
        exact hen
      | false =>
        simp only [Bool.false_eq_true, if_false, if_true]
        rw [hdrop1 rfl, hro]
        exact hen
    | false =>
      cases b with
      | true =>
        simp only [Bool.false_eq_true, if_false, if_true]
        rw [hdrop2 rfl, hro]
        exact hen
      | false =>
        simp only [Bool.false_eq_true, if_false]
        rw [hro]
        exact hen

/-- C6 (amended): view preparation is idempotent on tables with unique
column labels carrying at most one column normalizing to the realized
return ratio and at most one normalizing to the realized spend share;
with several same-normalization variants the second pass can reorder
them differently (see the counterexample). -/
theorem claim_C6 (df : DF) (a b : Bool) (hnd : df.names.Nodup)
    (hreal : df.names.countP (fun c => norm_col c = "roas_real") ≤ 1)
    (hacos : df.names.countP (fun c => norm_col c = "acos_real") ≤ 1) :
    prepare_df_for_view (prepare_df_for_view df a b) a b
      = prepare_df_for_view df a b := by
  by_cases hemp : df.isEmptyTbl = true
  · have h0 : prepare_df_for_view df a b = df := by
      unfold prepare_df_for_view
      rw [if_pos hemp]
    rw [h0]
    exact h0
  · have hne : df.isEmptyTbl = false := Bool.eq_false_iff.2 hemp
    cases a with
    | true =>
      have hXnd : (drop_cols_by_norm df cpiTargets).names.Nodup := by
        rw [drop_cols_names hne]
        exact List.Nodup.filter _ hnd
      have hXsub : (drop_cols_by_norm df cpiTargets).names.Sublist df.names :=
        drop_names_sublist df cpiTargets
      have hXcpi : ∀ c ∈ (drop_cols_by_norm df cpiTargets).names,
          cpiTargets.contains (norm_col c) = false :=
        fun c hc => (mem_drop_cols_names hne hc).2
      cases b with
      | true =>
        have hDsubX : (drop_cols_by_norm (drop_cols_by_norm df cpiTargets)
            ["roas"]).names.Sublist (drop_cols_by_norm df cpiTargets).names :=
          drop_names_sublist _ ["roas"]
        have hDnd := List.Nodup.sublist hDsubX hXnd
        have hDroas : ∀ c ∈ (drop_cols_by_norm (drop_cols_by_norm df cpiTargets)
            ["roas"]).names, (["roas"] : List String).contains (norm_col c) = false := by
          intro c hc
          by_cases hXe : (drop_cols_by_norm df cpiTargets).isEmptyTbl = true
          · exfalso
            have hcols : (drop_cols_by_norm df cpiTargets).cols = [] :=
              empty_cols_of_emptyTbl (fun cc hcc => mem_drop_cols_by_norm hcc) hne hXe
            rw [drop_cols_empty_id ["roas"] hXe] at hc
            have hnn : (drop_cols_by_norm df cpiTargets).names = [] := by
              show (drop_cols_by_norm df cpiTargets).cols.map Prod.fst = []
              rw [hcols]
              rfl
            rw [hnn] at hc
            cases hc
          · exact (mem_drop_cols_names (Bool.eq_false_iff.2 hXe) hc).2
        have hdf : prepare_df_for_view df true true
            = enforce_action_block (reorder_roas_acos
                (drop_cols_by_norm (drop_cols_by_norm df cpiTargets) ["roas"])) := by
          unfold prepare_df_for_view
          rw [hne]
          simp only [Bool.false_eq_true, if_false, if_true]
        rw [hdf]
        exact prepare_pass1_fix true true hDnd
          (le_trans ((hDsubX.trans hXsub).countP_le _) hreal)
          (le_trans ((hDsubX.trans hXsub).countP_le _) hacos)
          (fun _ c hc => hXcpi c (hDsubX.subset hc))
          (fun _ c hc => hDroas c hc)
      | false =>
        have hdf : prepare_df_for_view df true false
            = enforce_action_block (reorder_roas_acos
                (drop_cols_by_norm df cpiTargets)) := by
          unfold prepare_df_for_view
          rw [hne]
          simp only [Bool.false_eq_true, if_false, if_true]
        rw [hdf]
        exact prepare_pass1_fix true false hXnd
          (le_trans (hXsub.countP_le _) hreal)
          (le_trans (hXsub.countP_le _) hacos)
          (fun _ c hc => hXcpi c hc)
          (fun hb => absurd hb Bool.false_ne_true)
    | false =>
      cases b with
      | true =>
        have hDnd : (drop_cols_by_norm df ["roas"]).names.Nodup := by
          rw [drop_cols_names hne]
          exact List.Nodup.filter _ hnd
        have hDsub : (drop_cols_by_norm df ["roas"]).names.Sublist df.names :=
          drop_names_sublist df ["roas"]
        have hdf : prepare_df_for_view df false true
            = enforce_action_block (reorder_roas_acos
                (drop_cols_by_norm df ["roas"])) := by
          unfold prepare_df_for_view
          rw [hne]
          simp only [Bool.false_eq_true, if_false, if_true]
        rw [hdf]
        exact prepare_pass1_fix false true hDnd
          (le_trans (hDsub.countP_le _) hreal)
          (le_trans (hDsub.countP_le _) hacos)
          (fun ha => absurd ha Bool.false_ne_true)
          (fun _ c hc => (mem_drop_cols_names hne hc).2)
      | false =>
        have hdf : prepare_df_for_view df false false
            = enforce_action_block (reorder_roas_acos df) := by
          unfold prepare_df_for_view
          rw [hne]
          simp only [Bool.false_eq_true, if_false]
        rw [hdf]
        exact prepare_pass1_fix false false hnd hreal hacos
          (fun ha => absurd ha Bool.false_ne_true)
          (fun hb => absurd hb Bool.false_ne_true)

/-- Witness for the amended C6: a four-column report table with one
target-ratio, one realized-ratio and one realized-share column is a
fixed point of the second view-preparation pass. -/
theorem claim_C6_witness :
    prepare_df_for_view (prepare_df_for_view
      ⟨[("ROAS_Objetivo", [Cell.num 1]), ("ROAS_Real", [Cell.num 2]),
        ("ACOS Real", [Cell.num 3]), ("Motivo", [Cell.text "x"])]⟩ true false) true false
      = prepare_df_for_view
      ⟨[("ROAS_Objetivo", [Cell.num 1]), ("ROAS_Real", [Cell.num 2]),
        ("ACOS Real", [Cell.num 3]), ("Motivo", [Cell.text "x"])]⟩ true false :=
  claim_C6 ⟨[("ROAS_Objetivo", [Cell.num 1]), ("ROAS_Real", [Cell.num 2]),
    ("ACOS Real", [Cell.num 3]), ("Motivo", [Cell.text "x"])]⟩ true false
    (by decide) (by decide) (by decide)

end MlAds
